import Mathlib

/-!
Shallow embedding of the mesh-topology and refinement core of
`skfem/mesh/base_mesh.py`.

Modelling conventions:

* A NumPy 2-D array is a `List` of its rows.  The coordinate array
  `doflocs` (shape `dim × nvertices`) becomes `List (List ℚ)`; the
  connectivity `t` (shape `nnodes × nelements`) becomes `List (List ℕ)`.
  Element `el`'s local node `j` is `(t.getD j []).getD el 0`.
* Machine floats are modelled as exact rationals (`ℚ`): the code only
  adds, scales, halves and compares coordinates, except for the
  `np.sqrt` in `sort_mesh`, whose comparisons of Euclidean lengths are
  modelled by the equivalent comparisons of squared lengths
  (`Real.sqrt` is strictly monotone on nonnegatives).
* An entity table (`self.facets`, `self.edges`) is the list of its
  columns, one vertex tuple per entity, matching `indexing[:, ixa]`.
* An element-to-entity map (`self.t2f`, `self.t2e`) is the list of its
  rows, matching the NumPy layout `mapping[j, el]`.
* `np.unique(..., axis=1)` sorts the (column-sorted) keys
  lexicographically; both sorts are realised with `List.insertionSort`,
  which produces the same (unique) sorted arrangement as NumPy's sort
  for these total orders.
-/

/-- Value of row `i`, column `el` of a row-list matrix (0 out of range,
as NumPy arrays are rectangular and accesses in the source are in range). -/
def matGet (t : List (List ℕ)) (i el : ℕ) : ℕ :=
  (t.getD i []).getD el 0

/-- Number of elements `t.shape[1]` of a row-list connectivity. -/
def nElems (t : List (List ℕ)) : ℕ :=
  (t.headD []).length

/-- Largest entry of a row-list matrix, `np.max`. -/
def matMax (t : List (List ℕ)) : ℕ :=
  (t.flatten).foldr max 0

/-- Index of the first occurrence of `v` in `l`, `none` if absent. -/
def firstOcc {α : Type} [DecidableEq α] : List α → α → Option ℕ
  | [], _ => none
  | x :: xs, v => if x = v then some 0 else (firstOcc xs v).map (· + 1)

/-- Index of the last occurrence of `v` in `l`: the source computes it by
scanning the reversed stream (`np.unique(e[::-1])`) and flipping
(`ix_last = e.shape[0] - ix_last - 1`). -/
def lastOcc {α : Type} [DecidableEq α] (l : List α) (v : α) : Option ℕ :=
  (firstOcc l.reverse v).map (fun i => l.length - 1 - i)

/-- Boolean lexicographic order on vertex-index tuples, the order in which
`np.unique(..., axis=1)` returns its unique columns. -/
def lexLe : List ℕ → List ℕ → Bool
  | [], _ => true
  | _ :: _, [] => false
  | a :: as, b :: bs => a < b || (a == b && lexLe as bs)

/-- Propositional form of `lexLe`, for `List.insertionSort`. -/
def LexLeP (a b : List ℕ) : Prop := lexLe a b = true

instance : DecidableRel LexLeP := fun a b =>
  inferInstanceAs (Decidable (lexLe a b = true))

/-- Columnwise ascending sort, `np.sort(indexing, axis=0)` on one column. -/
def sortCol (c : List ℕ) : List ℕ :=
  List.insertionSort (· ≤ ·) c

/-- Column `el` of the block `t[ix]` of `build_entities`: the candidate
entity extracted from element `el` by the local vertex-index pattern `ix`. -/
def colExtract (t : List (List ℕ)) (ix : List ℕ) (el : ℕ) : List ℕ :=
  ix.map (fun i => matGet t i el)

/-- Columns of `indexing = np.hstack(tuple([t[ix] for ix in indices]))`, in
`hstack` order: all elements of pattern 0, then all elements of pattern 1, … -/
def scanCols (t : List (List ℕ)) (indices : List (List ℕ)) : List (List ℕ) :=
  indices.flatMap (fun ix => (List.range (nElems t)).map (colExtract t ix))

/-- Unique canonical (column-sorted) keys in the lexicographic order in which
`np.unique(sorted_indexing, axis=1)` returns them. -/
def uniqKeys (cols : List (List ℕ)) : List (List ℕ) :=
  List.insertionSort LexLeP ((cols.map sortCol).dedup)

/-- Index of a canonical key in the unique-key table: the value
`np.unique(..., return_inverse=True)` assigns to a column with that key. -/
def keyIdx (cols : List (List ℕ)) (key : List ℕ) : ℕ :=
  (firstOcc (uniqKeys cols) key).getD 0

/-- Source `BaseMesh.build_entities`: returns the deduplicated entity table (list of
columns, each the original unsorted tuple of the first occurrence of its
canonical key, `indexing[:, ixa]`) and the element-to-entity map (list of
rows, `ixb.reshape((len(indices), t.shape[1]))`). -/
def build_entities (t : List (List ℕ)) (indices : List (List ℕ)) :
    List (List ℕ) × List (List ℕ) :=
  let cols := scanCols t indices
  (
    (uniqKeys cols).map
      (fun key => cols.getD ((firstOcc (cols.map sortCol) key).getD 0) []),
    indices.map (fun ix =>
      (List.range (nElems t)).map
        (fun el => keyIdx cols (sortCol (colExtract t ix el))))
  )

/-- Flattened incidence stream `e = mapping.flatten(order='C')` of
`build_inverse`. -/
def invStream (mapping : List (List ℕ)) : List ℕ :=
  mapping.flatten

/-- The tiled element-index vector
`tix = np.tile(np.arange(t.shape[1]), (1, t.shape[0]))[0]` of
`build_inverse`. -/
def invTix (t : List (List ℕ)) : List ℕ :=
  (List.replicate t.length (List.range (nElems t))).flatten

/-- Row 0 of `build_inverse(t, mapping)`: the element of the first occurrence
of entity `v` in the flattened incidence stream (`inverse[0, e_first] =
tix[ix_first]`; entries never written keep the initial `0`). -/
def build_inverse_row0 (t : List (List ℕ)) (mapping : List (List ℕ)) (v : ℕ) : ℤ :=
  match firstOcc (invStream mapping) v with
  | some i => ((invTix t).getD i 0 : ℤ)
  | none => 0

/-- Row 1 of `build_inverse(t, mapping)` before the boundary-sentinel pass:
the element of the last occurrence of `v` (`inverse[1, e_last] =
tix[ix_last]`). -/
def build_inverse_row1_raw (t : List (List ℕ)) (mapping : List (List ℕ)) (v : ℕ) : ℤ :=
  match lastOcc (invStream mapping) v with
  | some i => ((invTix t).getD i 0 : ℤ)
  | none => 0

/-- Row 1 of `build_inverse(t, mapping)` after
`inverse[1, np.nonzero(inverse[0] == inverse[1])[0]] = -1`: the boundary
sentinel `-1` where the two rows coincide. -/
def build_inverse_row1 (t : List (List ℕ)) (mapping : List (List ℕ)) (v : ℕ) : ℤ :=
  if build_inverse_row0 t mapping v = build_inverse_row1_raw t mapping v then -1
  else build_inverse_row1_raw t mapping v

/-- Source `BaseMesh.boundary_facets`: `np.nonzero(self.f2t[1] == -1)[0]`, the
ascending list of entity indices whose second adjacency slot is the
sentinel.  The adjacency array has `np.max(mapping) + 1` columns. -/
def boundary_facets (t : List (List ℕ)) (mapping : List (List ℕ)) : List ℕ :=
  (List.range (matMax mapping + 1)).filter
    (fun v => build_inverse_row1 t mapping v = -1)

/-- Whether element `el` owns entity `v` according to the element-to-entity
map: some local slot of column `el` holds `v`. -/
def ownsEnt (mapping : List (List ℕ)) (el v : ℕ) : Bool :=
  mapping.any (fun row => row.getD el 0 == v)

/-- Number of elements owning entity `v`, counted directly from the
element-to-entity map. -/
def ownerCount (t : List (List ℕ)) (mapping : List (List ℕ)) (v : ℕ) : ℕ :=
  ((Finset.range (nElems t)).filter (fun el => ownsEnt mapping el v = true)).card

/-- Number of occurrences of entity `v` in column `el` of the
element-to-entity map (its local multiplicity within one element). -/
def colOcc (mapping : List (List ℕ)) (el v : ℕ) : ℕ :=
  (mapping.map (fun row => row.getD el 0)).count v

/-- A mesh value: coordinate rows and connectivity rows.  The element
family of the source's class hierarchy is implicit in which refinement
function is applied. -/
structure Mesh where
  doflocs : List (List ℚ)
  t : List (List ℕ)
deriving DecidableEq

/-- Number of vertices `p.shape[1]` (the `sz` of the refinement routines). -/
def Mesh.sz (m : Mesh) : ℕ := (m.doflocs.headD []).length

/-- Modelled from the spec: the local facet (edge) vertex-index patterns of
the triangle reference domain, `ElementTriP1.refdom.facets`, which is not
under `src/`.  The spec (§4.1) names "the 3 edges of a triangle" and §4.5
fixes local slot 2 as the edge between local vertices 0 and 2 (the slot
`sort_mesh` canonicalises to the longest edge). -/
def triFacets : List (List ℕ) := [[0, 1], [1, 2], [0, 2]]

/-- Modelled from the spec: the local facet patterns of the quadrilateral
reference domain (`ElementQuad1.refdom.facets`, not under `src/`): the four
sides of the quadrilateral `0-1-2-3` in cyclic order, consistent with the
`_uniform` template that places children around the centroid. -/
def quadFacets : List (List ℕ) := [[0, 1], [1, 2], [2, 3], [0, 3]]

/-- Modelled from the spec: the local facet patterns of the tetrahedron
reference domain (`ElementTetP1.refdom.facets`, not under `src/`): the four
triangular faces. -/
def tetFacets : List (List ℕ) := [[0, 1, 2], [0, 1, 3], [0, 2, 3], [1, 2, 3]]

/-- Modelled from the spec: the local edge patterns of the tetrahedron
reference domain (`ElementTetP1.refdom.edges`, not under `src/`): the six
edges, ordered so that edges 0, 2, 3 meet local vertex 0, edges 0, 1, 4 meet
local vertex 1, etc., consistent with the corner-child templates of
`MeshTet1._uniform`. -/
def tetEdges : List (List ℕ) :=
  [[0, 1], [1, 2], [0, 2], [0, 3], [1, 3], [2, 3]]

/-- Modelled from the spec: the local facet patterns of the hexahedron
reference domain (`ElementHex1.refdom.facets`, not under `src/`): the six
quadrilateral faces in the vertex numbering of the default `MeshHex1`,
consistent with the octasection template of `MeshHex1._uniform` (facets
0, 2, 1 meet local vertex 0, …). -/
def hexFacets : List (List ℕ) :=
  [[0, 1, 4, 2], [0, 2, 6, 3], [0, 3, 5, 1],
   [2, 4, 7, 6], [1, 5, 7, 4], [3, 6, 7, 5]]

/-- Modelled from the spec: the local edge patterns of the hexahedron
reference domain (`ElementHex1.refdom.edges`, not under `src/`): the twelve
edges, with edges 0, 1, 2 meeting local vertex 0, consistent with the
octasection template of `MeshHex1._uniform`. -/
def hexEdges : List (List ℕ) :=
  [[0, 1], [0, 2], [0, 3], [1, 4], [1, 5], [2, 4],
   [2, 6], [3, 5], [3, 6], [4, 7], [5, 7], [6, 7]]

/-- The default `MeshTri1`: unit square split into two triangles. -/
def defaultTri : Mesh :=
  ⟨[[0, 1, 0, 1], [0, 0, 1, 1]], [[0, 1], [1, 3], [2, 2]]⟩

/-- The default `MeshQuad1`: a single unit-square quadrilateral. -/
def defaultQuad : Mesh :=
  ⟨[[0, 1, 1, 0], [0, 0, 1, 1]], [[0], [1], [2], [3]]⟩

/-- One horizontal segment of a stacked connectivity block: entry `g el` for
every element `el` of the mesh (one `np.vstack` row over all elements). -/
def seg (n : ℕ) (g : ℕ → ℕ) : List ℕ := (List.range n).map g

/-- One horizontal segment over a selected element list (a boolean-mask
column selection such as `t2e[2, c1]`). -/
def segOn (els : List ℕ) (g : ℕ → ℕ) : List ℕ := els.map g

/-- Mean of the coordinates (one row of `p`) of the vertices of one entity
column: one column of `p[:, entities].mean(axis=1)`. -/
def entMean (row : List ℚ) (ent : List ℕ) : ℚ :=
  (ent.map (fun v => row.getD v 0)).sum / (ent.length : ℚ)

/-- Source `MeshTri1._uniform`: one new vertex per facet midpoint; each triangle
becomes three corner children and one central child. -/
def MeshTri1_uniform (m : Mesh) : Mesh :=
  let p := m.doflocs
  let t := m.t
  let fc := (build_entities t triFacets).1
  let t2f := (build_entities t triFacets).2
  let sz := m.sz
  let n := nElems t
  let tv := fun j el => matGet t j el
  let f := fun j el => matGet t2f j el + sz
  { doflocs := p.map (fun row => row ++ fc.map (entMean row)),
    t :=
      [seg n (tv 0) ++ seg n (tv 1) ++ seg n (tv 2) ++ seg n (f 0),
       seg n (f 0) ++ seg n (f 0) ++ seg n (f 2) ++ seg n (f 1),
       seg n (f 2) ++ seg n (f 1) ++ seg n (f 1) ++ seg n (f 2)] }

/-- Source `MeshQuad1._uniform`: one new vertex per facet midpoint and one per
element centroid; each quadrilateral becomes four children around the
centroid.  `mid = np.arange(t.shape[1]) + np.max(t2f) + sz + 1`. -/
def MeshQuad1_uniform (m : Mesh) : Mesh :=
  let p := m.doflocs
  let t := m.t
  let fc := (build_entities t quadFacets).1
  let t2f := (build_entities t quadFacets).2
  let sz := m.sz
  let n := nElems t
  let tv := fun j el => matGet t j el
  let f := fun j el => matGet t2f j el + sz
  let mid := fun el => el + matMax t2f + sz + 1
  { doflocs := p.map (fun row =>
      row ++ fc.map (entMean row)
          ++ (List.range n).map (fun el =>
                entMean row (t.map (fun trow => trow.getD el 0)))),
    t :=
      [seg n (tv 0) ++ seg n (f 0) ++ seg n mid ++ seg n (f 3),
       seg n (f 0) ++ seg n (tv 1) ++ seg n (f 1) ++ seg n mid,
       seg n mid ++ seg n (f 1) ++ seg n (tv 2) ++ seg n (f 2),
       seg n (f 3) ++ seg n mid ++ seg n (f 2) ++ seg n (tv 3)] }

/-- New coordinate rows of `MeshTet1._uniform`: old coordinates followed by
the midpoint of every edge. -/
def tetNewP (m : Mesh) : List (List ℚ) :=
  let ed := (build_entities m.t tetEdges).1
  m.doflocs.map (fun row =>
    row ++ ed.map (fun e =>
      (1 / 2 : ℚ) * (row.getD (e.getD 0 0) 0 + row.getD (e.getD 1 0) 0)))

/-- Entity index `t2e[j, el] + sz` used by the tetrahedral templates. -/
def tetE (m : Mesh) (j el : ℕ) : ℕ :=
  matGet (build_entities m.t tetEdges).2 j el + m.sz

/-- Squared middle-octahedron diagonal `d1` of `MeshTet1._uniform`
(diagonal `[2,4]`), computed — exactly as the source does — from only the
first two coordinate rows of `newp`. -/
def tetD1 (m : Mesh) (el : ℕ) : ℚ :=
  let x := fun i v => ((tetNewP m).getD i []).getD v 0
  (x 0 (tetE m 2 el) - x 0 (tetE m 4 el)) ^ 2 +
    (x 1 (tetE m 2 el) - x 1 (tetE m 4 el)) ^ 2

/-- Squared middle-octahedron diagonal `d2` (diagonal `[1,3]`). -/
def tetD2 (m : Mesh) (el : ℕ) : ℚ :=
  let x := fun i v => ((tetNewP m).getD i []).getD v 0
  (x 0 (tetE m 1 el) - x 0 (tetE m 3 el)) ^ 2 +
    (x 1 (tetE m 1 el) - x 1 (tetE m 3 el)) ^ 2

/-- Squared middle-octahedron diagonal `d3` (diagonal `[0,5]`). -/
def tetD3 (m : Mesh) (el : ℕ) : ℚ :=
  let x := fun i v => ((tetNewP m).getD i []).getD v 0
  (x 0 (tetE m 0 el) - x 0 (tetE m 5 el)) ^ 2 +
    (x 1 (tetE m 0 el) - x 1 (tetE m 5 el)) ^ 2

/-- Case mask `c1 = I1 * I2` of `MeshTet1._uniform`: diagonal `[2,4]`. -/
def tetCase1 (m : Mesh) (el : ℕ) : Bool :=
  decide (tetD1 m el < tetD2 m el) && decide (tetD1 m el < tetD3 m el)

/-- Case mask `c2 = (~I1) * I3`: diagonal `[1,3]`. -/
def tetCase2 (m : Mesh) (el : ℕ) : Bool :=
  !(decide (tetD1 m el < tetD2 m el)) && decide (tetD2 m el < tetD3 m el)

/-- Case mask `c3 = (~I2) * (~I3)`: diagonal `[0,5]`. -/
def tetCase3 (m : Mesh) (el : ℕ) : Bool :=
  !(decide (tetD1 m el < tetD3 m el)) && !(decide (tetD2 m el < tetD3 m el))

/-- Source `MeshTet1._uniform`: four corner children per element plus four middle
children from the selected-diagonal split of the central octahedron. -/
def MeshTet1_uniform (m : Mesh) : Mesh :=
  let t := m.t
  let n := nElems t
  let tv := fun j el => matGet t j el
  let e := tetE m
  let L1 := (List.range n).filter (fun el => tetCase1 m el)
  let L2 := (List.range n).filter (fun el => tetCase2 m el)
  let L3 := (List.range n).filter (fun el => tetCase3 m el)
  { doflocs := tetNewP m,
    t :=
      [seg n (tv 0) ++ seg n (tv 1) ++ seg n (tv 2) ++ seg n (tv 3) ++
         segOn L1 (e 2) ++ segOn L1 (e 2) ++ segOn L1 (e 2) ++ segOn L1 (e 2) ++
         segOn L2 (e 1) ++ segOn L2 (e 1) ++ segOn L2 (e 1) ++ segOn L2 (e 1) ++
         segOn L3 (e 0) ++ segOn L3 (e 0) ++ segOn L3 (e 0) ++ segOn L3 (e 0),
       seg n (e 0) ++ seg n (e 0) ++ seg n (e 1) ++ seg n (e 3) ++
         segOn L1 (e 4) ++ segOn L1 (e 4) ++ segOn L1 (e 4) ++ segOn L1 (e 4) ++
         segOn L2 (e 3) ++ segOn L2 (e 3) ++ segOn L2 (e 3) ++ segOn L2 (e 3) ++
         segOn L3 (e 5) ++ segOn L3 (e 5) ++ segOn L3 (e 5) ++ segOn L3 (e 5),
       seg n (e 2) ++ seg n (e 1) ++ seg n (e 2) ++ seg n (e 4) ++
         segOn L1 (e 0) ++ segOn L1 (e 0) ++ segOn L1 (e 1) ++ segOn L1 (e 3) ++
         segOn L2 (e 0) ++ segOn L2 (e 4) ++ segOn L2 (e 5) ++ segOn L2 (e 2) ++
         segOn L3 (e 1) ++ segOn L3 (e 4) ++ segOn L3 (e 3) ++ segOn L3 (e 2),
       seg n (e 3) ++ seg n (e 4) ++ seg n (e 5) ++ seg n (e 5) ++
         segOn L1 (e 1) ++ segOn L1 (e 3) ++ segOn L1 (e 5) ++ segOn L1 (e 5) ++
         segOn L2 (e 4) ++ segOn L2 (e 5) ++ segOn L2 (e 2) ++ segOn L2 (e 0) ++
         segOn L3 (e 4) ++ segOn L3 (e 3) ++ segOn L3 (e 2) ++ segOn L3 (e 1)] }

/-- Source `MeshHex1._uniform`: new vertices at edge midpoints, facet midpoints and
centroids; each hexahedron becomes eight children by octasection. -/
def MeshHex1_uniform (m : Mesh) : Mesh :=
  let p := m.doflocs
  let t := m.t
  let ed := (build_entities t hexEdges).1
  let fc := (build_entities t hexFacets).1
  let t2eMap := (build_entities t hexEdges).2
  let t2fMap := (build_entities t hexFacets).2
  let sz := m.sz
  let n := nElems t
  let tv := fun j el => matGet t j el
  let e := fun j el => matGet t2eMap j el + sz
  let f := fun j el => matGet t2fMap j el + (matMax t2eMap + sz + 1)
  let mid := fun el => el + (matMax t2fMap + (matMax t2eMap + sz + 1)) + 1
  { doflocs := p.map (fun row =>
      row ++ ed.map (fun en =>
               (1 / 2 : ℚ) * (en.map (fun v => row.getD v 0)).sum)
          ++ fc.map (fun fa =>
               (1 / 4 : ℚ) * (fa.map (fun v => row.getD v 0)).sum)
          ++ (List.range n).map (fun el =>
               (1 / 8 : ℚ) * (t.map (fun trow => row.getD (trow.getD el 0) 0)).sum)),
    t :=
      [seg n (tv 0) ++ seg n (e 0) ++ seg n (e 1) ++ seg n (e 2) ++
         seg n (f 0) ++ seg n (f 2) ++ seg n (f 1) ++ seg n mid,
       seg n (e 0) ++ seg n (tv 1) ++ seg n (f 0) ++ seg n (f 2) ++
         seg n (e 3) ++ seg n (e 4) ++ seg n mid ++ seg n (f 4),
       seg n (e 1) ++ seg n (f 0) ++ seg n (tv 2) ++ seg n (f 1) ++
         seg n (e 5) ++ seg n mid ++ seg n (e 6) ++ seg n (f 3),
       seg n (e 2) ++ seg n (f 2) ++ seg n (f 1) ++ seg n (tv 3) ++
         seg n mid ++ seg n (e 7) ++ seg n (e 8) ++ seg n (f 5),
       seg n (f 0) ++ seg n (e 3) ++ seg n (e 5) ++ seg n mid ++
         seg n (tv 4) ++ seg n (f 4) ++ seg n (f 3) ++ seg n (e 9),
       seg n (f 2) ++ seg n (e 4) ++ seg n mid ++ seg n (e 7) ++
         seg n (f 4) ++ seg n (tv 5) ++ seg n (f 5) ++ seg n (e 10),
       seg n (f 1) ++ seg n mid ++ seg n (e 6) ++ seg n (e 8) ++
         seg n (f 3) ++ seg n (f 5) ++ seg n (tv 6) ++ seg n (e 11),
       seg n mid ++ seg n (f 4) ++ seg n (f 3) ++ seg n (f 5) ++
         seg n (e 9) ++ seg n (e 10) ++ seg n (e 11) ++ seg n (tv 7)] }

/-- Source `BaseMesh.refined` with an integer argument: iterate `_uniform`. -/
def refinedBy (uni : Mesh → Mesh) : Mesh → ℕ → Mesh
  | m, 0 => m
  | m, k + 1 => refinedBy uni (uni m) k

/-- Source `BaseMesh.scaled`: `none` models the `IndexError` the source raises when
the operand is longer than the number of coordinate rows; otherwise the
comprehension `[self.doflocs[itr] * factors[itr] for itr in
range(len(factors))]` keeps exactly the first `len(factors)` rows. -/
def scaled (m : Mesh) (factors : List ℚ) : Option Mesh :=
  if factors.length ≤ m.doflocs.length then
    some { doflocs := (List.range factors.length).map
             (fun i => (m.doflocs.getD i []).map (fun x => x * factors.getD i 0)),
           t := m.t }
  else none

/-- Source `BaseMesh.translated`: like `scaled`, with a rowwise shift. -/
def translated (m : Mesh) (diffs : List ℚ) : Option Mesh :=
  if diffs.length ≤ m.doflocs.length then
    some { doflocs := (List.range diffs.length).map
             (fun i => (m.doflocs.getD i []).map (fun x => x + diffs.getD i 0)),
           t := m.t }
  else none

/-- Squared Euclidean distance between coordinate columns `a` and `b`
(`np.sum((p[:, a] - p[:, b]) ** 2, axis=0)`).  `sort_mesh` compares
`np.sqrt` of these; square root is strictly monotone on nonnegatives, so
the comparisons below are the source's comparisons. -/
def sqDist (p : List (List ℚ)) (a b : ℕ) : ℚ :=
  (p.map (fun row => (row.getD a 0 - row.getD b 0) ^ 2)).sum

/-- Mask `ix01 = (l01 > l02) * (l01 > l12)` of `sort_mesh`. -/
def sortIx01 (p : List (List ℚ)) (t : List (List ℕ)) (el : ℕ) : Bool :=
  let l01 := sqDist p (matGet t 0 el) (matGet t 1 el)
  let l12 := sqDist p (matGet t 1 el) (matGet t 2 el)
  let l02 := sqDist p (matGet t 0 el) (matGet t 2 el)
  decide (l02 < l01) && decide (l12 < l01)

/-- Mask `ix12 = (l12 > l01) * (l12 > l02)` of `sort_mesh`. -/
def sortIx12 (p : List (List ℚ)) (t : List (List ℕ)) (el : ℕ) : Bool :=
  let l01 := sqDist p (matGet t 0 el) (matGet t 1 el)
  let l12 := sqDist p (matGet t 1 el) (matGet t 2 el)
  let l02 := sqDist p (matGet t 0 el) (matGet t 2 el)
  decide (l01 < l12) && decide (l02 < l12)

/-- Row 1 of `t` after the first in-place swap of `sort_mesh`
(rows 1 and 2 swapped where `ix01`). -/
def sortStage1Row1 (p : List (List ℚ)) (t : List (List ℕ)) (el : ℕ) : ℕ :=
  if sortIx01 p t el then matGet t 2 el else matGet t 1 el

/-- Row 2 of `t` after the first in-place swap of `sort_mesh`. -/
def sortStage1Row2 (p : List (List ℚ)) (t : List (List ℕ)) (el : ℕ) : ℕ :=
  if sortIx01 p t el then matGet t 1 el else matGet t 2 el

/-- Source `sort_mesh(p, t)`: canonicalise each triangle so that the locally
longest edge is local edge `(0, 2)`.  Both masks are computed from the
original `t`; the second swap (rows 0 and 1 where `ix12`) acts on the
array left by the first.  The source performs the swaps in place on
`self.t`; this is the final contents of that array, which `sort_mesh`
also returns. -/
def sort_mesh (p : List (List ℚ)) (t : List (List ℕ)) : List (List ℕ) :=
  let n := nElems t
  [seg n (fun el => if sortIx12 p t el then sortStage1Row1 p t el else matGet t 0 el),
   seg n (fun el => if sortIx12 p t el then matGet t 0 el else sortStage1Row1 p t el),
   seg n (fun el => sortStage1Row2 p t el)]

/-- The element-to-facet map of a triangle mesh, `self.t2f`. -/
def triT2F (m : Mesh) : List (List ℕ) := (build_entities m.t triFacets).2

/-- The facet table of a triangle mesh, `self.facets`. -/
def triFacetTable (m : Mesh) : List (List ℕ) := (build_entities m.t triFacets).1

/-- Local facet `j` of triangle `el`, `self.t2f[j, el]`. -/
def triF (m : Mesh) (j el : ℕ) : ℕ := matGet (triT2F m) j el

/-- Number of facets of a triangle mesh, `self.facets.shape[1]`. -/
def triNFacets (m : Mesh) : ℕ := (triFacetTable m).length

/-- Initial flag set of `find_facets`:
`facets[m.t2f[:, marked_elems].flatten('F')] = 1`. -/
def initFlags (m : Mesh) (marked : List ℕ) : Finset ℕ :=
  (marked.flatMap (fun el => [triF m 0 el, triF m 1 el, triF m 2 el])).toFinset

/-- One pass of the propagation loop of `find_facets`: flag local facet 2 of
every triangle one of whose local facets 0, 1 is flagged
(`t2facets[2, t2facets[0, :] + t2facets[1, :] > 0] = 1;`
`facets[m.t2f[t2facets == 1]] = 1`). -/
def facetsStep (m : Mesh) (s : Finset ℕ) : Finset ℕ :=
  s ∪ ((Finset.range (nElems m.t)).filter
        (fun el => triF m 0 el ∈ s ∨ triF m 1 el ∈ s)).image (fun el => triF m 2 el)

/-- The `while` loop of `find_facets`: repeat a pass while the flag count
still grows; on a pass that adds nothing, return its (unchanged) result.
The fuel only witnesses termination — flags grow monotonically and are
bounded by the facet count, exactly the source's termination argument. -/
def stepLoop (step : Finset ℕ → Finset ℕ) : ℕ → Finset ℕ → Finset ℕ
  | 0, s => s
  | fuel + 1, s =>
    let s' := step s
    if s'.card = s.card then s' else stepLoop step fuel s'

/-- Source `find_facets(m, marked_elems)`: the flagged-facet set at loop exit. -/
def find_facets (m : Mesh) (marked : List ℕ) : Finset ℕ :=
  stepLoop (facetsStep m) (triNFacets m + 1) (initFlags m marked)

/-- Number of local facets of triangle `el` flagged in `s` — the count the
spec's propagation rule ("at least two of its three local edges are
flagged") is stated in terms of.  This is the claimed rule, written from
the spec's words for comparison with `facetsStep`. -/
def specFlagCount (m : Mesh) (s : Finset ℕ) (el : ℕ) : ℕ :=
  (if triF m 0 el ∈ s then 1 else 0) + (if triF m 1 el ∈ s then 1 else 0) +
    (if triF m 2 el ∈ s then 1 else 0)

/-- One pass of the propagation rule as the spec states it: for every
triangle with at least two flagged local edges, additionally flag local
edge 2.  Written from the spec's words for comparison with `facetsStep`. -/
def specStep (m : Mesh) (s : Finset ℕ) : Finset ℕ :=
  s ∪ ((Finset.range (nElems m.t)).filter
        (fun el => 2 ≤ specFlagCount m s el)).image (fun el => triF m 2 el)

/-- Fixed point of the spec's propagation rule from the marked elements'
facets, computed with the same loop shape as `find_facets`. -/
def specFlags (m : Mesh) (marked : List ℕ) : Finset ℕ :=
  stepLoop (specStep m) (triNFacets m + 1) (initFlags m marked)

/-- Ascending list of flagged facet indices: the columns selected by
`facets == 1` masks in `split_elements`. -/
def flaggedList (m : Mesh) (F : Finset ℕ) : List ℕ :=
  (List.range (triNFacets m)).filter (fun x => decide (x ∈ F))

/-- Position of flagged facet `fct` among the flagged facets in ascending
order: `ix[facets == 1] = np.arange(np.count_nonzero(facets)) + m.p.shape[1]`
assigns `m.p.shape[1] +` this rank. -/
def facetRank (F : Finset ℕ) (fct : ℕ) : ℕ :=
  ((List.range fct).filter (fun x => decide (x ∈ F))).length

/-- Entry `ix[j, el]` of `split_elements`: the new-vertex index of local
facet `j` of element `el` if flagged, else the sentinel `-1`. -/
def splitIx (m : Mesh) (F : Finset ℕ) (j el : ℕ) : ℤ :=
  if triF m j el ∈ F then ((m.sz + facetRank F (triF m j el) : ℕ) : ℤ) else -1

/-- Mask `red = (ix[0] >= 0) * (ix[1] >= 0) * (ix[2] >= 0)`. -/
def splitRed (m : Mesh) (F : Finset ℕ) (el : ℕ) : Bool :=
  decide (0 ≤ splitIx m F 0 el) && decide (0 ≤ splitIx m F 1 el) &&
    decide (0 ≤ splitIx m F 2 el)

/-- Mask `blue1 = (ix[0] == -1) * (ix[1] >= 0) * (ix[2] >= 0)`. -/
def splitBlue1 (m : Mesh) (F : Finset ℕ) (el : ℕ) : Bool :=
  decide (splitIx m F 0 el = -1) && decide (0 ≤ splitIx m F 1 el) &&
    decide (0 ≤ splitIx m F 2 el)

/-- Mask `blue2 = (ix[0] >= 0) * (ix[1] == -1) * (ix[2] >= 0)`. -/
def splitBlue2 (m : Mesh) (F : Finset ℕ) (el : ℕ) : Bool :=
  decide (0 ≤ splitIx m F 0 el) && decide (splitIx m F 1 el = -1) &&
    decide (0 ≤ splitIx m F 2 el)

/-- Mask `green = (ix[0] == -1) * (ix[1] == -1) * (ix[2] >= 0)`. -/
def splitGreen (m : Mesh) (F : Finset ℕ) (el : ℕ) : Bool :=
  decide (splitIx m F 0 el = -1) && decide (splitIx m F 1 el = -1) &&
    decide (0 ≤ splitIx m F 2 el)

/-- Mask `rest = (ix[0] == -1) * (ix[1] == -1) * (ix[2] == -1)`. -/
def splitRest (m : Mesh) (F : Finset ℕ) (el : ℕ) : Bool :=
  decide (splitIx m F 0 el = -1) && decide (splitIx m F 1 el = -1) &&
    decide (splitIx m F 2 el = -1)

/-- New-vertex index `ix[j, el]` as a vertex number (only used in slots
where the mask guarantees `ix[j, el] >= 0`). -/
def splitIxN (m : Mesh) (F : Finset ℕ) (j el : ℕ) : ℕ :=
  (splitIx m F j el).toNat

/-- New coordinate rows of `split_elements`: old coordinates followed by the
midpoint of every flagged facet, appended once per facet in ascending
facet order (matching the ranks of `splitIx`). -/
def splitP (m : Mesh) (F : Finset ℕ) : List (List ℚ) :=
  m.doflocs.map (fun row =>
    row ++ (flaggedList m F).map (fun fct =>
      (1 / 2 : ℚ) *
        (row.getD (((triFacetTable m).getD fct []).getD 0 0) 0 +
          row.getD (((triFacetTable m).getD fct []).getD 1 0) 0)))

/-- New connectivity rows of `split_elements`: untouched elements first,
then the red, blue-1, blue-2 and green children, with the templates of the
source. -/
def splitT (m : Mesh) (F : Finset ℕ) : List (List ℕ) :=
  let n := nElems m.t
  let tS := fun j el => matGet m.t j el
  let ixN := splitIxN m F
  let restL := (List.range n).filter (fun el => splitRest m F el)
  let redL := (List.range n).filter (fun el => splitRed m F el)
  let blue1L := (List.range n).filter (fun el => splitBlue1 m F el)
  let blue2L := (List.range n).filter (fun el => splitBlue2 m F el)
  let greenL := (List.range n).filter (fun el => splitGreen m F el)
  [segOn restL (tS 0) ++
     segOn redL (tS 0) ++ segOn redL (tS 1) ++ segOn redL (tS 2) ++
       segOn redL (ixN 1) ++
     segOn blue1L (tS 1) ++ segOn blue1L (tS 1) ++ segOn blue1L (tS 2) ++
     segOn blue2L (tS 0) ++ segOn blue2L (ixN 2) ++ segOn blue2L (tS 2) ++
     segOn greenL (tS 1) ++ segOn greenL (tS 2),
   segOn restL (tS 1) ++
     segOn redL (ixN 0) ++ segOn redL (ixN 0) ++ segOn redL (ixN 1) ++
       segOn redL (ixN 2) ++
     segOn blue1L (tS 0) ++ segOn blue1L (ixN 1) ++ segOn blue1L (ixN 2) ++
     segOn blue2L (ixN 0) ++ segOn blue2L (ixN 0) ++ segOn blue2L (ixN 2) ++
     segOn greenL (ixN 2) ++ segOn greenL (ixN 2),
   segOn restL (tS 2) ++
     segOn redL (ixN 2) ++ segOn redL (ixN 1) ++ segOn redL (ixN 2) ++
       segOn redL (ixN 0) ++
     segOn blue1L (ixN 2) ++ segOn blue1L (ixN 2) ++ segOn blue1L (ixN 1) ++
     segOn blue2L (ixN 2) ++ segOn blue2L (tS 1) ++ segOn blue2L (tS 1) ++
     segOn greenL (tS 0) ++ segOn greenL (tS 1)]

/-- Contents of `self.t` after a call to `MeshTri1._adaptive`: `sort_mesh`
swaps rows of the very array `self.t` in place (NumPy fancy-index
assignment), so the source mesh's connectivity holds the canonicalised
rows once `_adaptive` returns. -/
def adaptiveMutatedT (m : Mesh) : List (List ℕ) :=
  sort_mesh m.doflocs m.t

/-- Source `MeshTri1._adaptive(marked)`: canonicalise, propagate flags to a fixed
point, then split. -/
def MeshTri1_adaptive (m : Mesh) (marked : List ℕ) : Mesh :=
  let sorted : Mesh := ⟨m.doflocs, sort_mesh m.doflocs m.t⟩
  let F := find_facets sorted marked
  { doflocs := splitP sorted F, t := splitT sorted F }

/-- Source `BaseMesh.boundary_edges` (3-D meshes), generic in the family's local
facet/edge patterns.  `none` models the `ValueError` that
`np.ravel_multi_index` raises when an entry of `B` exceeds the shape
derived from `A` (`dims = A.max(0) + 1`); entries of `A` are in range by
construction. -/
def boundary_edges (t : List (List ℕ)) (facetPat edgePat : List (List ℕ)) :
    Option (List ℕ) :=
  let fc := (build_entities t facetPat).1
  let t2f := (build_entities t facetPat).2
  let t2e := (build_entities t edgePat).2
  let ed := (build_entities t edgePat).1
  let bf := boundary_facets t t2f
  let k := (fc.headD []).length
  let fV := fun fb i => (fc.getD fb []).getD i 0
  let B := (List.range k).flatMap (fun itr =>
    bf.map (fun fb => sortCol [fV fb itr, fV fb ((itr + 1) % k)]))
  let cand := List.insertionSort (· ≤ ·)
    ((bf.flatMap (fun fb =>
        (List.range edgePat.length).map
          (fun j => matGet t2e j (build_inverse_row0 t t2f fb).toNat))).dedup)
  let A := cand.map (fun c => ed.getD c [])
  let d1 := (A.map (fun r => r.getD 1 0)).foldr max 0 + 1
  let d0 := (A.map (fun r => r.getD 0 0)).foldr max 0 + 1
  let enc := fun (r : List ℕ) => r.getD 0 0 * d1 + r.getD 1 0
  if B.all (fun r => r.getD 0 0 < d0 && r.getD 1 0 < d1) then
    some (((List.range A.length).filter
      (fun jj => (B.map enc).contains (enc (A.getD jj [])))).map
        (fun jj => cand.getD jj 0))
  else none

/-- Default `MeshTet1`: the unit cube split into five tetrahedra. -/
def defaultTet : Mesh :=
  ⟨[[0, 0, 0, 1, 0, 1, 1, 1], [0, 0, 1, 0, 1, 0, 1, 1], [0, 1, 0, 0, 1, 1, 0, 1]],
   [[0, 3, 2, 2, 1], [1, 5, 3, 3, 2], [2, 1, 6, 1, 4], [3, 7, 7, 7, 7]]⟩

/-- Default `MeshHex1`: a single unit cube. -/
def defaultHex : Mesh :=
  ⟨[[0, 0, 0, 1, 0, 1, 1, 1], [0, 0, 1, 0, 1, 0, 1, 1], [0, 1, 0, 0, 1, 1, 0, 1]],
   [[0], [1], [2], [3], [4], [5], [6], [7]]⟩

/-- A single tetrahedron whose connectivity column is `(1, 0, 2, 3)`, so the
edge extracted by local pattern `[0, 1]` is stored in descending vertex
order `(1, 0)`. -/
def tetDescMesh : Mesh :=
  ⟨[[0, 0, 0, 1], [0, 0, 1, 0], [0, 1, 0, 0]], [[1], [0], [2], [3]]⟩

/-- A single triangle whose locally longest edge is the local edge `(0,1)`:
vertices `(0,0)`, `(2,0)`, `(1,1)`. -/
def obtuseTri : Mesh :=
  ⟨[[0, 2, 1], [0, 0, 1]], [[0], [1], [2]]⟩

/-- A second copy of the single obtuse triangle (used independently of
`obtuseTri` to witness the in-place mutation of `self.t`). -/
def obtuseTriCopy : Mesh :=
  ⟨[[0, 2, 1], [0, 0, 1]], [[0], [1], [2]]⟩

/-- Two triangles `(0,1,2)` and `(1,2,3)` sharing the edge `{1,2}`, which is
local facet 0 of the second triangle; both triangles are already
longest-edge canonical for the given coordinates. -/
def chainTri : Mesh :=
  ⟨[[0, 1, 1/2, 3/2], [0, 0, 1, 1]], [[0, 1], [1, 2], [2, 3]]⟩

/-- Connectivity used to refute the literal reading of claim C2: one vertex
row, two elements. -/
def gapT : List (List ℕ) := [[0, 1]]

/-- Element-to-entity map with a gap: entity `1` never occurs although the
maximum entity index is `2`; every entity is incident to at most two
elements and occurs at most once per element. -/
def gapMapping : List (List ℕ)  := [[0, 2]]

/-- Connectivity (one vertex row, two elements) for the C2 witness. -/
def densT : List (List ℕ) := [[0, 1]]

/-- Element-to-entity map in which every entity index up to the maximum
occurs: entity 0 owned by element 0 only, entity 1 by element 1 only. -/
def densMapping : List (List ℕ) := [[0, 1]]

/-- Degenerate connectivity for the C3 counterexample: one element whose
four local nodes are the vertices `(1, 1, 2, 2)`. -/
def degT : List (List ℕ) := [[1], [1], [2], [2]]

/-- Patterns extracting the slots `(1,1,2)` and `(1,2,2)` from `degT`: equal
as vertex sets, different as multisets. -/
def degPatterns : List (List ℕ) := [[0, 1, 2], [1, 2, 3]]

/-! Auxiliary lemmas about the list primitives of the embedding. -/

theorem firstOcc_eq_none {α : Type} [DecidableEq α] (l : List α) (v : α) :
    firstOcc l v = none ↔ v ∉ l := by
  induction l with
  | nil => simp [firstOcc]
  | cons x xs ih =>
    by_cases h : x = v
    · simp [firstOcc, h]
    · simp [firstOcc, h, ih, Ne.symm h]

theorem firstOcc_isSome_of_mem {α : Type} [DecidableEq α] {l : List α} {v : α}
    (h : v ∈ l) : ∃ i, firstOcc l v = some i := by
  rcases ho : firstOcc l v with _ | i
  · exact absurd h ((firstOcc_eq_none l v).mp ho)
  · exact ⟨i, rfl⟩

theorem firstOcc_lt_length {α : Type} [DecidableEq α] {l : List α} {v : α} {i : ℕ}
    (h : firstOcc l v = some i) : i < l.length := by
  induction l generalizing i with
  | nil => simp [firstOcc] at h
  | cons x xs ih =>
    by_cases hx : x = v
    · simp [firstOcc, hx] at h
      simp only [List.length_cons]
      omega
    · simp [firstOcc, hx] at h
      rcases h with ⟨j, hj, rfl⟩
      have := ih hj
      simp only [List.length_cons]
      omega

theorem firstOcc_getD {α : Type} [DecidableEq α] {l : List α} {v : α} {i : ℕ}
    (h : firstOcc l v = some i) (d : α) : l.getD i d = v := by
  induction l generalizing i with
  | nil => simp [firstOcc] at h
  | cons x xs ih =>
    by_cases hx : x = v
    · simp [firstOcc, hx] at h
      subst h
      simpa using hx
    · simp [firstOcc, hx] at h
      rcases h with ⟨j, hj, rfl⟩
      simpa using ih hj

theorem firstOcc_min {α : Type} [DecidableEq α] {l : List α} {v : α} {i : ℕ}
    (h : firstOcc l v = some i) (d : α) :
    ∀ j, j < i → l.getD j d ≠ v := by
  induction l generalizing i with
  | nil => simp [firstOcc] at h
  | cons x xs ih =>
    by_cases hx : x = v
    · simp [firstOcc, hx] at h
      omega
    · simp [firstOcc, hx] at h
      rcases h with ⟨j', hj', rfl⟩
      intro j hj
      cases j with
      | zero => simpa using hx
      | succ k =>
        have hk : k < j' := by omega
        simpa using ih hj' k hk

theorem getD_reverse {α : Type} (l : List α) (d : α) {j : ℕ} (h : j < l.length) :
    l.reverse.getD j d = l.getD (l.length - 1 - j) d := by
  have h' : j < l.reverse.length := by simpa using h
  have h'' : l.length - 1 - j < l.length := by omega
  rw [List.getD_eq_getElem l d h'', List.getD_eq_getElem l.reverse d h']
  exact List.getElem_reverse h'

theorem lastOcc_spec {α : Type} [DecidableEq α] {l : List α} {v : α} {i : ℕ}
    (h : lastOcc l v = some i) (d : α) :
    i < l.length ∧ l.getD i d = v ∧ ∀ j, i < j → j < l.length → l.getD j d ≠ v := by
  rcases hfo : firstOcc l.reverse v with _ | i'
  · simp [lastOcc, hfo] at h
  · have hi' : i' < l.length := by simpa using firstOcc_lt_length hfo
    have hval := firstOcc_getD hfo d
    rw [getD_reverse l d (by omega)] at hval
    simp [lastOcc, hfo] at h
    subst h
    refine ⟨by omega, hval, ?_⟩
    intro j hji hj hv
    have hrj : l.reverse.getD (l.length - 1 - j) d = v := by
      rw [getD_reverse l d (by omega)]
      have : l.length - 1 - (l.length - 1 - j) = j := by omega
      rw [this]
      exact hv
    exact firstOcc_min hfo d (l.length - 1 - j) (by omega) hrj

theorem lastOcc_isSome_of_mem {α : Type} [DecidableEq α] {l : List α} {v : α}
    (h : v ∈ l) : ∃ i, lastOcc l v = some i := by
  have : v ∈ l.reverse := by simpa using h
  rcases firstOcc_isSome_of_mem this with ⟨i, hi⟩
  exact ⟨l.length - 1 - i, by simp [lastOcc, hi]⟩

theorem flatten_length_of_uniform {α : Type} {rows : List (List α)} {n : ℕ}
    (h : ∀ r ∈ rows, r.length = n) :
    rows.flatten.length = rows.length * n := by
  induction rows with
  | nil => simp
  | cons r rs ih =>
    simp only [List.flatten_cons, List.length_append, List.length_cons]
    rw [h r (by simp), ih (fun r hr => h r (by simp [hr]))]
    ring

theorem flatten_getD_of_uniform {α : Type} {rows : List (List α)} {n : ℕ}
    (h : ∀ r ∈ rows, r.length = n) (d : α) :
    ∀ i, i < rows.length * n →
      rows.flatten.getD i d = (rows.getD (i / n) []).getD (i % n) d := by
  induction rows with
  | nil => intro i hi; simp at hi
  | cons r rs ih =>
    intro i hi
    have hn : 0 < n := by
      rcases Nat.eq_zero_or_pos n with h0 | h0
      · subst h0; simp at hi
      · exact h0
    have hr : r.length = n := h r (by simp)
    by_cases hcase : i < n
    · have hdiv : i / n = 0 := Nat.div_eq_of_lt hcase
      have hmod : i % n = i := Nat.mod_eq_of_lt hcase
      simp only [List.flatten_cons, hdiv, hmod, List.getD_cons_zero]
      rw [List.getD_append _ _ _ _ (by omega)]
    · have hge : n ≤ i := by omega
      have hdiv : i / n = (i - n) / n + 1 := by
        rw [Nat.div_eq_sub_div hn hge]
      have hmod : i % n = (i - n) % n := by
        conv_lhs => rw [← Nat.sub_add_cancel hge]
        rw [Nat.add_mod_right]
      simp only [List.flatten_cons, hdiv, hmod, List.getD_cons_succ]
      rw [List.getD_append_right _ _ _ _ (by omega)]
      rw [hr]
      have hexp : (r :: rs).length * n = rs.length * n + n := by
        simp only [List.length_cons]
        ring
      exact ih (fun r hr => h r (by simp [hr])) (i - n) (by omega)

theorem invTix_getD (t : List (List ℕ)) {i : ℕ}
    (hi : i < t.length * nElems t) :
    (invTix t).getD i 0 = i % nElems t := by
  have hn : 0 < nElems t := by
    rcases Nat.eq_zero_or_pos (nElems t) with h0 | h0
    · rw [h0] at hi; simp at hi
    · exact h0
  have huni : ∀ r ∈ List.replicate t.length (List.range (nElems t)),
      r.length = nElems t := by
    intro r hr
    rw [List.eq_of_mem_replicate hr]
    simp
  unfold invTix
  rw [flatten_getD_of_uniform huni 0 i (by simpa using hi)]
  have hdiv : i / nElems t < t.length :=
    Nat.div_lt_of_lt_mul (by rwa [Nat.mul_comm] at hi)
  have : (List.replicate t.length (List.range (nElems t))).getD (i / nElems t) [] =
      List.range (nElems t) := by
    rw [List.getD_eq_getElem _ _ (by simpa using hdiv)]
    simp
  rw [this]
  rw [List.getD_eq_getElem _ _ (by simpa using Nat.mod_lt i hn)]
  simp

theorem two_le_count_of_getD {α : Type} [DecidableEq α] {l : List α} {i j : ℕ}
    {v : α} (d : α) (hij : i < j) (hj : j < l.length)
    (hvi : l.getD i d = v) (hvj : l.getD j d = v) : 2 ≤ l.count v := by
  induction l generalizing i j with
  | nil => simp at hj
  | cons x xs ih =>
    cases i with
    | zero =>
      cases j with
      | zero => omega
      | succ j' =>
        simp only [List.getD_cons_zero] at hvi
        simp only [List.getD_cons_succ] at hvj
        have hj' : j' < xs.length := by
          simp only [List.length_cons] at hj
          omega
        have hmem : v ∈ xs := by
          rw [← hvj, List.getD_eq_getElem xs d hj']
          exact List.getElem_mem _
        have h1 : 1 ≤ xs.count v := List.one_le_count_iff.mpr hmem
        have hx : (x == v) = true := by simp [hvi]
        simp only [List.count_cons, hx, if_true]
        omega
    | succ i' =>
      cases j with
      | zero => omega
      | succ j' =>
        simp only [List.getD_cons_succ] at hvi hvj
        have hj' : j' < xs.length := by
          simp only [List.length_cons] at hj
          omega
        have h2 := ih (i := i') (j := j') (by omega) hj' hvi hvj
        by_cases hx : (x == v) = true
        · simp only [List.count_cons, hx, if_true]
          omega
        · simp only [List.count_cons, Bool.eq_false_iff.mpr hx, if_false]
          omega

theorem getD_map_in {α β : Type} {l : List α} {j : ℕ} (hj : j < l.length)
    (f : α → β) (d : β) (dα : α) :
    (l.map f).getD j d = f (l.getD j dα) := by
  rw [List.getD_eq_getElem _ _ (by simpa using hj), List.getElem_map,
    List.getD_eq_getElem _ _ hj]

theorem getD_range_map {β : Type} {n el : ℕ} (hel : el < n) (g : ℕ → β) (d : β) :
    ((List.range n).map g).getD el d = g el := by
  rw [getD_map_in (by simpa using hel) g d 0]
  congr 1
  rw [List.getD_eq_getElem _ _ (by simpa using hel)]
  simp

theorem mem_uniqKeys {cols : List (List ℕ)} {key : List ℕ} :
    key ∈ uniqKeys cols ↔ key ∈ cols.map sortCol := by
  unfold uniqKeys
  rw [(List.perm_insertionSort LexLeP _).mem_iff, List.mem_dedup]

theorem nodup_uniqKeys (cols : List (List ℕ)) : (uniqKeys cols).Nodup := by
  unfold uniqKeys
  exact ((List.perm_insertionSort LexLeP _).nodup_iff).mpr (List.nodup_dedup _)

theorem keyIdx_lt {cols : List (List ℕ)} {key : List ℕ}
    (h : key ∈ cols.map sortCol) :
    keyIdx cols key < (uniqKeys cols).length := by
  rcases firstOcc_isSome_of_mem (mem_uniqKeys.mpr h) with ⟨i, hi⟩
  unfold keyIdx
  rw [hi]
  simpa using firstOcc_lt_length hi

theorem uniqKeys_getD_keyIdx {cols : List (List ℕ)} {key : List ℕ}
    (h : key ∈ cols.map sortCol) :
    (uniqKeys cols).getD (keyIdx cols key) [] = key := by
  rcases firstOcc_isSome_of_mem (mem_uniqKeys.mpr h) with ⟨i, hi⟩
  unfold keyIdx
  rw [hi]
  simpa using firstOcc_getD hi []

theorem keyIdx_inj {cols : List (List ℕ)} {k1 k2 : List ℕ}
    (h1 : k1 ∈ cols.map sortCol) (h2 : k2 ∈ cols.map sortCol) :
    keyIdx cols k1 = keyIdx cols k2 ↔ k1 = k2 := by
  constructor
  · intro h
    have := uniqKeys_getD_keyIdx h1
    rw [h, uniqKeys_getD_keyIdx h2] at this
    exact this.symm
  · intro h
    rw [h]

theorem extract_mem_scanCols {t indices : List (List ℕ)} {j el : ℕ}
    (hj : j < indices.length) (hel : el < nElems t) :
    colExtract t (indices.getD j []) el ∈ scanCols t indices := by
  unfold scanCols
  apply List.mem_flatMap.mpr
  refine ⟨indices.getD j [], ?_, ?_⟩
  · rw [List.getD_eq_getElem _ _ hj]
    exact List.getElem_mem _
  · exact List.mem_map_of_mem _ (List.mem_range.mpr hel)

theorem extract_key_mem {t indices : List (List ℕ)} {j el : ℕ}
    (hj : j < indices.length) (hel : el < nElems t) :
    sortCol (colExtract t (indices.getD j []) el) ∈ (scanCols t indices).map sortCol :=
  List.mem_map_of_mem _ (extract_mem_scanCols hj hel)

theorem matGet_mapping {t indices : List (List ℕ)} {j el : ℕ}
    (hj : j < indices.length) (hel : el < nElems t) :
    matGet (build_entities t indices).2 j el =
      keyIdx (scanCols t indices) (sortCol (colExtract t (indices.getD j []) el)) := by
  unfold build_entities matGet
  simp only
  rw [getD_map_in hj _ [] []]
  rw [getD_range_map hel _ 0]

theorem mapping_lt_table {t indices : List (List ℕ)} {j el : ℕ}
    (hj : j < indices.length) (hel : el < nElems t) :
    matGet (build_entities t indices).2 j el < (build_entities t indices).1.length := by
  rw [matGet_mapping hj hel]
  unfold build_entities
  simp only [List.length_map]
  exact keyIdx_lt (extract_key_mem hj hel)

theorem table_getD {t indices : List (List ℕ)} {key : List ℕ}
    (h : key ∈ (scanCols t indices).map sortCol) :
    (build_entities t indices).1.getD (keyIdx (scanCols t indices) key) [] =
      (scanCols t indices).getD
        ((firstOcc ((scanCols t indices).map sortCol) key).getD 0) [] := by
  unfold build_entities
  simp only
  rw [getD_map_in (keyIdx_lt h) _ [] []]
  rw [uniqKeys_getD_keyIdx h]

/-- C3 (amended): for every connectivity array and list of local
vertex-index patterns, `build_entities` maps two (element, local-pattern)
slots to the same index into the entity table exactly when their extracted
vertex tuples are equal as multisets (equal after sorting) — in particular
slots whose vertex sets differ get distinct indices — and the table column
of a slot holds, in the original unsorted vertex order, the tuple of the
first occurrence of its canonical sorted key in the (pattern-major)
element/pattern scan. -/
theorem claimC3_amended (t indices : List (List ℕ)) (j el j' el' : ℕ)
    (hj : j < indices.length) (hel : el < nElems t)
    (hj' : j' < indices.length) (hel' : el' < nElems t) :
    (matGet (build_entities t indices).2 j el =
        matGet (build_entities t indices).2 j' el' ↔
      sortCol (colExtract t (indices.getD j []) el) =
        sortCol (colExtract t (indices.getD j' []) el')) ∧
    ∃ i, i < (scanCols t indices).length ∧
      sortCol ((scanCols t indices).getD i []) =
        sortCol (colExtract t (indices.getD j []) el) ∧
      (∀ i', i' < i → sortCol ((scanCols t indices).getD i' []) ≠
        sortCol (colExtract t (indices.getD j []) el)) ∧
      (build_entities t indices).1.getD (matGet (build_entities t indices).2 j el) [] =
        (scanCols t indices).getD i [] := by
  constructor
  · rw [matGet_mapping hj hel, matGet_mapping hj' hel']
    exact keyIdx_inj (extract_key_mem hj hel) (extract_key_mem hj' hel')
  · have hmem := extract_key_mem hj hel
    rcases firstOcc_isSome_of_mem hmem with ⟨i, hi⟩
    have hilen : i < (scanCols t indices).length := by
      simpa using firstOcc_lt_length hi
    refine ⟨i, hilen, ?_, ?_, ?_⟩
    · have := firstOcc_getD hi []
      rwa [getD_map_in hilen sortCol [] []] at this
    · intro i' hi'
      have hval := firstOcc_min hi [] i' hi'
      rwa [getD_map_in (by omega) sortCol [] []] at hval
    · rw [matGet_mapping hj hel, table_getD hmem, hi]
      rfl

/-- C3 counterexample: two slots of a degenerate element whose extracted
tuples `(1,1,2)` and `(1,2,2)` are equal as vertex sets but are mapped to
distinct indices into the entity table, refuting the claim's "equal as
sets" criterion. -/
theorem claimC3_counterexample :
    (colExtract degT (degPatterns.getD 0 []) 0).toFinset =
        (colExtract degT (degPatterns.getD 1 []) 0).toFinset ∧
      matGet (build_entities degT degPatterns).2 0 0 ≠
        matGet (build_entities degT degPatterns).2 1 0 := by
  decide

/-- C3 witness: the amended theorem applied to the default triangle mesh,
slots (pattern 0, element 0) and (pattern 1, element 0). -/
theorem claimC3_witness :
    (0 < triFacets.length ∧ 0 < nElems defaultTri.t ∧ 1 < triFacets.length) ∧
      (matGet (build_entities defaultTri.t triFacets).2 0 0 =
          matGet (build_entities defaultTri.t triFacets).2 1 0 ↔
        sortCol (colExtract defaultTri.t (triFacets.getD 0 []) 0) =
          sortCol (colExtract defaultTri.t (triFacets.getD 1 []) 0)) :=
  ⟨⟨by decide, by decide, by decide⟩,
    (claimC3_amended defaultTri.t triFacets 0 0 1 0 (by decide) (by decide)
      (by decide) (by decide)).1⟩

theorem inv_occ_owner {t mapping : List (List ℕ)}
    (h1 : ∀ row ∈ mapping, row.length = nElems t)
    {i v : ℕ} (hi : i < mapping.length * nElems t)
    (hv : (invStream mapping).getD i 0 = v) :
    i % nElems t < nElems t ∧ ownsEnt mapping (i % nElems t) v = true := by
  have hn : 0 < nElems t := by
    rcases Nat.eq_zero_or_pos (nElems t) with h0 | h0
    · rw [h0] at hi; simp at hi
    · exact h0
  refine ⟨Nat.mod_lt i hn, ?_⟩
  unfold invStream at hv
  rw [flatten_getD_of_uniform h1 0 i hi] at hv
  have hdivlt : i / nElems t < mapping.length :=
    Nat.div_lt_of_lt_mul (by rwa [Nat.mul_comm] at hi)
  unfold ownsEnt
  rw [List.any_eq_true]
  refine ⟨mapping.getD (i / nElems t) [], ?_, ?_⟩
  · rw [List.getD_eq_getElem _ _ hdivlt]
    exact List.getElem_mem _
  · simpa using hv

theorem inv_owner_occ {t mapping : List (List ℕ)}
    (h1 : ∀ row ∈ mapping, row.length = nElems t)
    {el v : ℕ} (hel : el < nElems t) (hv : ownsEnt mapping el v = true) :
    ∃ i, i < mapping.length * nElems t ∧
      (invStream mapping).getD i 0 = v ∧ i % nElems t = el := by
  unfold ownsEnt at hv
  rw [List.any_eq_true] at hv
  obtain ⟨row, hrowmem, hrowv⟩ := hv
  obtain ⟨k, hk, hkrow⟩ := List.getElem_of_mem hrowmem
  refine ⟨nElems t * k + el, ?_, ?_, ?_⟩
  · have h1' : (k + 1) * nElems t ≤ mapping.length * nElems t :=
      mul_le_mul_right' (by omega) _
    have : nElems t * k + el < (k + 1) * nElems t := by
      have : (k + 1) * nElems t = nElems t * k + nElems t := by ring
      omega
    omega
  · have hiL : nElems t * k + el < mapping.length * nElems t := by
      have h1' : (k + 1) * nElems t ≤ mapping.length * nElems t :=
        mul_le_mul_right' (by omega) _
      have : (k + 1) * nElems t = nElems t * k + nElems t := by ring
      omega
    unfold invStream
    rw [flatten_getD_of_uniform h1 0 _ hiL]
    have hdiv : (nElems t * k + el) / nElems t = k := by
      rw [Nat.mul_add_div (by omega)]
      rw [Nat.div_eq_of_lt hel]
      omega
    have hmod : (nElems t * k + el) % nElems t = el := by
      rw [Nat.mul_add_mod]
      exact Nat.mod_eq_of_lt hel
    rw [hdiv, hmod]
    rw [List.getD_eq_getElem _ _ hk, hkrow]
    simpa using hrowv
  · rw [Nat.mul_add_mod]
    exact Nat.mod_eq_of_lt hel

/-- C2 (amended): for every connectivity and element-to-entity map in which
each global entity is incident to at most two elements, occurs at most once
per element, and — the amendment forced by the counterexample — occurs at
least once (every index up to the map's maximum appears, as is always the
case for maps produced by `build_entities`; the map may not have more rows
than the connectivity), `build_inverse` puts an owning element in row 0,
puts the sentinel `-1` in row 1 exactly for the entities with exactly one
owner, puts the other owner in row 1 for entities with two owners, and
consequently `boundary_facets()` returns exactly the entities with exactly
one incident element. -/
theorem claimC2_amended (t mapping : List (List ℕ))
    (h1 : ∀ row ∈ mapping, row.length = nElems t)
    (h2 : mapping.length ≤ t.length)
    (h3 : ∀ v, v ≤ matMax mapping → v ∈ invStream mapping)
    (h4 : ∀ v, v ≤ matMax mapping → ownerCount t mapping v ≤ 2)
    (h5 : ∀ v, v ≤ matMax mapping → ∀ el, el < nElems t →
      colOcc mapping el v ≤ 1) :
    (∀ v, v ≤ matMax mapping →
      (∃ el, el < nElems t ∧ ownsEnt mapping el v = true ∧
        build_inverse_row0 t mapping v = el) ∧
      (build_inverse_row1 t mapping v = -1 ↔ ownerCount t mapping v = 1) ∧
      (ownerCount t mapping v = 2 →
        build_inverse_row1 t mapping v ≠ build_inverse_row0 t mapping v ∧
        ∃ el, el < nElems t ∧ ownsEnt mapping el v = true ∧
          build_inverse_row1 t mapping v = el)) ∧
    boundary_facets t mapping =
      (List.range (matMax mapping + 1)).filter
        (fun v => ownerCount t mapping v = 1) := by
  have hmain : ∀ v, v ≤ matMax mapping →
      (∃ el, el < nElems t ∧ ownsEnt mapping el v = true ∧
        build_inverse_row0 t mapping v = el) ∧
      (build_inverse_row1 t mapping v = -1 ↔ ownerCount t mapping v = 1) ∧
      (ownerCount t mapping v = 2 →
        build_inverse_row1 t mapping v ≠ build_inverse_row0 t mapping v ∧
        ∃ el, el < nElems t ∧ ownsEnt mapping el v = true ∧
          build_inverse_row1 t mapping v = el) := by
    intro v hv
    have hvmem := h3 v hv
    have hL : (invStream mapping).length = mapping.length * nElems t :=
      flatten_length_of_uniform h1
    obtain ⟨fi, hfi⟩ := firstOcc_isSome_of_mem hvmem
    obtain ⟨li, hli⟩ := lastOcc_isSome_of_mem hvmem
    have hfiL : fi < mapping.length * nElems t := by
      rw [← hL]; exact firstOcc_lt_length hfi
    obtain ⟨hliL', hlival, hlimax⟩ := lastOcc_spec hli 0
    have hliL : li < mapping.length * nElems t := by rwa [hL] at hliL'
    have hfival : (invStream mapping).getD fi 0 = v := firstOcc_getD hfi 0
    have hn : 0 < nElems t := by
      rcases Nat.eq_zero_or_pos (nElems t) with h0 | h0
      · rw [h0] at hfiL; simp at hfiL
      · exact h0
    have hmulle : mapping.length * nElems t ≤ t.length * nElems t :=
      mul_le_mul_right' h2 _
    have hrow0 : build_inverse_row0 t mapping v = ((fi % nElems t : ℕ) : ℤ) := by
      have hfit : fi < t.length * nElems t := by omega
      unfold build_inverse_row0
      rw [hfi]
      show ((invTix t).getD fi 0 : ℤ) = _
      rw [invTix_getD t hfit]
    have hraw : build_inverse_row1_raw t mapping v = ((li % nElems t : ℕ) : ℤ) := by
      have hlit : li < t.length * nElems t := by omega
      unfold build_inverse_row1_raw
      rw [hli]
      show ((invTix t).getD li 0 : ℤ) = _
      rw [invTix_getD t hlit]
    obtain ⟨han, haowns⟩ := inv_occ_owner h1 hfiL hfival
    obtain ⟨hbn, hbowns⟩ := inv_occ_owner h1 hliL hlival
    -- if the first and last occurrences lie in the same element, that
    -- element is the unique owner
    have hAB : fi % nElems t = li % nElems t → ownerCount t mapping v = 1 := by
      intro hab
      have huniq : ∀ el, el < nElems t → ownsEnt mapping el v = true →
          el = fi % nElems t := by
        intro el hel how
        by_contra hne
        obtain ⟨i, hiL, hival, himod⟩ := inv_owner_occ h1 hel how
        have hige : fi ≤ i := by
          by_contra hlt
          push_neg at hlt
          exact firstOcc_min hfi 0 i hlt hival
        have hile : i ≤ li := by
          by_contra hgt
          push_neg at hgt
          exact hlimax i hgt (by omega) hival
        have hif : i ≠ fi := fun h => hne (by rw [← himod, h])
        have hil : i ≠ li := fun h => hne (by rw [← himod, h, ← hab])
        have hfl : fi < li := by omega
        have hfldiv : fi / nElems t ≠ li / nElems t := by
          intro hdeq
          have : fi = li := by
            have e1 : fi = nElems t * (fi / nElems t) + fi % nElems t :=
              (Nat.div_add_mod fi (nElems t)).symm
            have e2 : li = nElems t * (li / nElems t) + li % nElems t :=
              (Nat.div_add_mod li (nElems t)).symm
            rw [e1, e2, hdeq, hab]
          omega
        have hfdivlt : fi / nElems t < mapping.length :=
          Nat.div_lt_of_lt_mul (by rwa [Nat.mul_comm] at hfiL)
        have hldivlt : li / nElems t < mapping.length :=
          Nat.div_lt_of_lt_mul (by rwa [Nat.mul_comm] at hliL)
        have hdivle : fi / nElems t ≤ li / nElems t :=
          Nat.div_le_div_right (by omega)
        have hdivlt : fi / nElems t < li / nElems t := by omega
        -- v occurs twice in column fi % nElems t
        have hcolf : (mapping.map (fun row => row.getD (fi % nElems t) 0)).getD
            (fi / nElems t) 0 = v := by
          rw [getD_map_in hfdivlt _ 0 []]
          have := hfival
          unfold invStream at this
          rwa [flatten_getD_of_uniform h1 0 fi hfiL] at this
        have hcoll : (mapping.map (fun row => row.getD (fi % nElems t) 0)).getD
            (li / nElems t) 0 = v := by
          rw [getD_map_in hldivlt _ 0 []]
          have := hlival
          unfold invStream at this
          rw [flatten_getD_of_uniform h1 0 li hliL] at this
          rwa [← hab] at this
        have h2c : 2 ≤ colOcc mapping (fi % nElems t) v := by
          unfold colOcc
          exact two_le_count_of_getD 0 hdivlt (by simpa using hldivlt) hcolf hcoll
        have := h5 v hv (fi % nElems t) han
        omega
      unfold ownerCount
      have hset : (Finset.range (nElems t)).filter
          (fun el => ownsEnt mapping el v = true) = {fi % nElems t} := by
        apply Finset.eq_singleton_iff_unique_mem.mpr
        constructor
        · rw [Finset.mem_filter]
          exact ⟨Finset.mem_range.mpr han, haowns⟩
        · intro el helmem
          rw [Finset.mem_filter] at helmem
          exact huniq el (Finset.mem_range.mp helmem.1) helmem.2
      rw [hset]
      simp
    have hBA : ownerCount t mapping v = 1 → fi % nElems t = li % nElems t := by
      intro hone
      unfold ownerCount at hone
      obtain ⟨w, hw⟩ := Finset.card_eq_one.mp hone
      have hamem : fi % nElems t ∈ (Finset.range (nElems t)).filter
          (fun el => ownsEnt mapping el v = true) := by
        rw [Finset.mem_filter]
        exact ⟨Finset.mem_range.mpr han, haowns⟩
      have hbmem : li % nElems t ∈ (Finset.range (nElems t)).filter
          (fun el => ownsEnt mapping el v = true) := by
        rw [Finset.mem_filter]
        exact ⟨Finset.mem_range.mpr hbn, hbowns⟩
      rw [hw, Finset.mem_singleton] at hamem hbmem
      rw [hamem, hbmem]
    have hiff : build_inverse_row1 t mapping v = -1 ↔ ownerCount t mapping v = 1 := by
      unfold build_inverse_row1
      by_cases heq : build_inverse_row0 t mapping v = build_inverse_row1_raw t mapping v
      · rw [if_pos heq]
        have hab : fi % nElems t = li % nElems t := by
          rw [hrow0, hraw] at heq
          exact_mod_cast heq
        simp [hAB hab]
      · rw [if_neg heq]
        constructor
        · intro hcontra
          rw [hraw] at hcontra
          omega
        · intro hone
          exfalso
          apply heq
          rw [hrow0, hraw]
          exact_mod_cast hBA hone
    refine ⟨⟨fi % nElems t, han, haowns, hrow0⟩, hiff, ?_⟩
    intro htwo
    have hne1 : build_inverse_row1 t mapping v ≠ -1 := by
      intro hc
      have := hiff.mp hc
      omega
    have heqn : build_inverse_row0 t mapping v ≠ build_inverse_row1_raw t mapping v := by
      intro heq
      apply hne1
      unfold build_inverse_row1
      rw [if_pos heq]
    have hrow1 : build_inverse_row1 t mapping v = ((li % nElems t : ℕ) : ℤ) := by
      unfold build_inverse_row1
      rw [if_neg heqn]
      exact hraw
    refine ⟨?_, li % nElems t, hbn, hbowns, hrow1⟩
    intro hc
    apply heqn
    rw [hrow1] at hc
    rw [hraw, ← hc]
  refine ⟨hmain, ?_⟩
  unfold boundary_facets
  apply List.filter_congr
  intro v hvmem
  have hvle : v ≤ matMax mapping := by
    rw [List.mem_range] at hvmem
    omega
  have hiff := (hmain v hvle).2.1
  exact decide_eq_decide.mpr hiff

/-- C2 counterexample: with connectivity `[[0, 1]]` and element-to-entity
map `[[0, 2]]` — every entity incident to at most two elements and at most
once per element — entity `1` (below the map's maximum `2`) has zero owning
elements, yet `build_inverse` writes the boundary sentinel into its second
row and a non-owning element into its first, refuting the claim as stated. -/
theorem claimC2_counterexample :
    ownerCount gapT gapMapping 1 = 0 ∧
      build_inverse_row1 gapT gapMapping 1 = -1 ∧
      ownsEnt gapMapping ((build_inverse_row0 gapT gapMapping 1).toNat) 1 = false := by
  decide

/-- C2 witness: the amended theorem applied to the two-element map
`[[0, 1]]` over the connectivity `[[0, 1]]`, instantiating the
`boundary_facets` consequence. -/
theorem claimC2_witness :
    boundary_facets densT densMapping =
      (List.range (matMax densMapping + 1)).filter
        (fun v => ownerCount densT densMapping v = 1) :=
  (claimC2_amended densT densMapping (by decide) (by decide)
    (by decide) (by decide) (by decide)).2

/-- C9 (amended): `scaled`/`translated` raise an error exactly when the
operand is longer than the number of coordinate rows (shorter operands
silently truncate the coordinate array instead of raising); when the
lengths match, the result multiplies (respectively shifts) each coordinate
row by the matching operand entry and leaves the connectivity unchanged. -/
theorem claimC9_amended (m : Mesh) (factors diffs : List ℚ) :
    ((scaled m factors).isSome = true ↔ factors.length ≤ m.doflocs.length) ∧
    (factors.length = m.doflocs.length →
      ∃ m', scaled m factors = some m' ∧ m'.t = m.t ∧
        m'.doflocs.length = m.doflocs.length ∧
        ∀ i, i < m.doflocs.length →
          m'.doflocs.getD i [] =
            (m.doflocs.getD i []).map (fun x => x * factors.getD i 0)) ∧
    ((translated m diffs).isSome = true ↔ diffs.length ≤ m.doflocs.length) ∧
    (diffs.length = m.doflocs.length →
      ∃ m', translated m diffs = some m' ∧ m'.t = m.t ∧
        m'.doflocs.length = m.doflocs.length ∧
        ∀ i, i < m.doflocs.length →
          m'.doflocs.getD i [] =
            (m.doflocs.getD i []).map (fun x => x + diffs.getD i 0)) := by
  refine ⟨?_, ?_, ?_, ?_⟩
  · unfold scaled
    by_cases h : factors.length ≤ m.doflocs.length
    · simp [h]
    · simp [h]
  · intro hlen
    unfold scaled
    rw [if_pos (le_of_eq hlen)]
    refine ⟨_, rfl, rfl, ?_, ?_⟩
    · simp [hlen]
    · intro i hi
      rw [getD_range_map (by omega) _ []]
  · unfold translated
    by_cases h : diffs.length ≤ m.doflocs.length
    · simp [h]
    · simp [h]
  · intro hlen
    unfold translated
    rw [if_pos (le_of_eq hlen)]
    refine ⟨_, rfl, rfl, ?_, ?_⟩
    · simp [hlen]
    · intro i hi
      rw [getD_range_map (by omega) _ []]

/-- C9 counterexample: the default triangle mesh has two coordinate rows,
yet `scaled`/`translated` with a length-1 operand return a mesh (with the
coordinate array truncated to one row) instead of raising an error. -/
theorem claimC9_counterexample :
    defaultTri.doflocs.length = 2 ∧
      (scaled defaultTri [2]).isSome = true ∧
      (translated defaultTri [2]).isSome = true := by
  decide

/-- C9 witness: the amended theorem applied to the default triangle mesh
with the length-2 operand `[2, 3]`. -/
theorem claimC9_witness :
    (([2, 3] : List ℚ).length = defaultTri.doflocs.length) ∧
      ∃ m', scaled defaultTri [2, 3] = some m' ∧ m'.t = defaultTri.t ∧
        m'.doflocs.length = defaultTri.doflocs.length ∧
        ∀ i, i < defaultTri.doflocs.length →
          m'.doflocs.getD i [] =
            (defaultTri.doflocs.getD i []).map
              (fun x => x * ([2, 3] : List ℚ).getD i 0) :=
  ⟨by decide, (claimC9_amended defaultTri [2, 3] [2, 3]).2.1 (by decide)⟩

theorem length_filter3 {l : List ℕ} {p q r : ℕ → Bool}
    (h : ∀ x ∈ l,
      (p x = true ∧ q x = false ∧ r x = false) ∨
      (p x = false ∧ q x = true ∧ r x = false) ∨
      (p x = false ∧ q x = false ∧ r x = true)) :
    (l.filter p).length + (l.filter q).length + (l.filter r).length = l.length := by
  induction l with
  | nil => simp
  | cons x xs ih =>
    have hx := h x (by simp)
    have ihx := ih (fun y hy => h y (by simp [hy]))
    rcases hx with ⟨h1, h2, h3⟩ | ⟨h1, h2, h3⟩ | ⟨h1, h2, h3⟩ <;>
      simp [List.filter_cons, h1, h2, h3] <;>
      omega

theorem tetCases_trichotomy (m : Mesh) (el : ℕ) :
    (tetCase1 m el = true ∧ tetCase2 m el = false ∧ tetCase3 m el = false) ∨
    (tetCase1 m el = false ∧ tetCase2 m el = true ∧ tetCase3 m el = false) ∨
    (tetCase1 m el = false ∧ tetCase2 m el = false ∧ tetCase3 m el = true) := by
  unfold tetCase1 tetCase2 tetCase3
  by_cases h12 : tetD1 m el < tetD2 m el <;>
    by_cases h13 : tetD1 m el < tetD3 m el <;>
      by_cases h23 : tetD2 m el < tetD3 m el <;>
        simp [h12, h13, h23] <;> linarith

theorem nElems_tri_uniform (m : Mesh) :
    nElems (MeshTri1_uniform m).t = 4 * nElems m.t := by
  simp only [MeshTri1_uniform, nElems, List.headD_cons, List.length_append,
    seg, List.length_map, List.length_range]
  omega

theorem nElems_quad_uniform (m : Mesh) :
    nElems (MeshQuad1_uniform m).t = 4 * nElems m.t := by
  simp only [MeshQuad1_uniform, nElems, List.headD_cons, List.length_append,
    seg, List.length_map, List.length_range]
  omega

theorem nElems_hex_uniform (m : Mesh) :
    nElems (MeshHex1_uniform m).t = 8 * nElems m.t := by
  simp only [MeshHex1_uniform, nElems, List.headD_cons, List.length_append,
    seg, List.length_map, List.length_range]
  omega

theorem nElems_tet_uniform (m : Mesh) :
    nElems (MeshTet1_uniform m).t = 8 * nElems m.t := by
  have hpart := length_filter3 (l := List.range (nElems m.t))
    (p := fun el => tetCase1 m el) (q := fun el => tetCase2 m el)
    (r := fun el => tetCase3 m el)
    (fun x _ => tetCases_trichotomy m x)
  simp only [List.length_range, nElems] at hpart
  simp only [MeshTet1_uniform, nElems, List.headD_cons, List.length_append,
    seg, segOn, List.length_map, List.length_range]
  omega

theorem refinedBy_count (uni : Mesh → Mesh) (c : ℕ)
    (h : ∀ m, nElems (uni m).t = c * nElems m.t) :
    ∀ m k, nElems (refinedBy uni m k).t = c ^ k * nElems m.t := by
  intro m k
  induction k generalizing m with
  | zero => simp [refinedBy]
  | succ k ih =>
    show nElems (refinedBy uni (uni m) k).t = c ^ (k + 1) * nElems m.t
    rw [ih (uni m), h m, pow_succ]
    ring

/-- C1: one uniform refinement multiplies the element count by exactly 4
(triangle, quadrilateral) or 8 (tetrahedron, hexahedron); iterating
`refined(k)` multiplies it by `4^k` or `8^k`; and for the tetrahedron the
three middle-octahedron diagonal cases are mutually exclusive and
exhaustive for every combination of the compared squared diagonal lengths
(ties included), so every element gets exactly 4 middle children. -/
theorem claimC1_refinement_counts :
    (∀ m : Mesh, nElems (MeshTri1_uniform m).t = 4 * nElems m.t) ∧
    (∀ m : Mesh, nElems (MeshQuad1_uniform m).t = 4 * nElems m.t) ∧
    (∀ m : Mesh, nElems (MeshTet1_uniform m).t = 8 * nElems m.t) ∧
    (∀ m : Mesh, nElems (MeshHex1_uniform m).t = 8 * nElems m.t) ∧
    (∀ (m : Mesh) (k : ℕ),
      nElems (refinedBy MeshTri1_uniform m k).t = 4 ^ k * nElems m.t) ∧
    (∀ (m : Mesh) (k : ℕ),
      nElems (refinedBy MeshQuad1_uniform m k).t = 4 ^ k * nElems m.t) ∧
    (∀ (m : Mesh) (k : ℕ),
      nElems (refinedBy MeshTet1_uniform m k).t = 8 ^ k * nElems m.t) ∧
    (∀ (m : Mesh) (k : ℕ),
      nElems (refinedBy MeshHex1_uniform m k).t = 8 ^ k * nElems m.t) ∧
    (∀ (m : Mesh) (el : ℕ),
      (if tetCase1 m el then 1 else 0) + (if tetCase2 m el then 1 else 0) +
        (if tetCase3 m el then 1 else 0) = 1) := by
  refine ⟨nElems_tri_uniform, nElems_quad_uniform, nElems_tet_uniform,
    nElems_hex_uniform,
    refinedBy_count _ 4 nElems_tri_uniform,
    refinedBy_count _ 4 nElems_quad_uniform,
    refinedBy_count _ 8 nElems_tet_uniform,
    refinedBy_count _ 8 nElems_hex_uniform, ?_⟩
  intro m el
  rcases tetCases_trichotomy m el with ⟨h1, h2, h3⟩ | ⟨h1, h2, h3⟩ | ⟨h1, h2, h3⟩ <;>
    simp [h1, h2, h3]

theorem stepLoop_inflation (step : Finset ℕ → Finset ℕ)
    (hinfl : ∀ s, s ⊆ step s) :
    ∀ fuel s, s ⊆ stepLoop step fuel s := by
  intro fuel
  induction fuel with
  | zero => intro s; simp [stepLoop]
  | succ k ih =>
    intro s
    simp only [stepLoop]
    by_cases hc : (step s).card = s.card
    · rw [if_pos hc]
      exact hinfl s
    · rw [if_neg hc]
      exact (hinfl s).trans (ih (step s))

theorem stepLoop_fixpoint (step : Finset ℕ → Finset ℕ) (N : ℕ)
    (hinfl : ∀ s, s ⊆ step s)
    (hrange : ∀ s, step s ⊆ s ∪ Finset.range N) :
    ∀ fuel s, (Finset.range N \ s).card < fuel →
      step (stepLoop step fuel s) = stepLoop step fuel s := by
  intro fuel
  induction fuel with
  | zero => intro s h; omega
  | succ k ih =>
    intro s hcard
    simp only [stepLoop]
    by_cases hc : (step s).card = s.card
    · rw [if_pos hc]
      have heq : s = step s :=
        Finset.eq_of_subset_of_card_le (hinfl s) (le_of_eq hc)
      rw [← heq]
      exact heq.symm
    · rw [if_neg hc]
      apply ih
      have hne : step s ≠ s := fun h => hc (by rw [h])
      have hss : s ⊂ step s := ssubset_of_subset_of_ne (hinfl s) (Ne.symm hne)
      obtain ⟨x, hxstep, hxs⟩ := Finset.exists_of_ssubset hss
      have hxN : x ∈ Finset.range N := by
        have := hrange s hxstep
        rw [Finset.mem_union] at this
        tauto
      have hsub : Finset.range N \ step s ⊆ Finset.range N \ s :=
        Finset.sdiff_subset_sdiff (Finset.Subset.refl _) (hinfl s)
      have hstrict : Finset.range N \ step s ⊂ Finset.range N \ s := by
        rw [Finset.ssubset_iff_of_subset hsub]
        exact ⟨x, Finset.mem_sdiff.mpr ⟨hxN, hxs⟩,
          fun hmem => (Finset.mem_sdiff.mp hmem).2 hxstep⟩
      have := Finset.card_lt_card hstrict
      omega

theorem stepLoop_le (step : Finset ℕ → Finset ℕ) (T : Finset ℕ)
    (hstepT : ∀ s, s ⊆ T → step s ⊆ T) :
    ∀ fuel s, s ⊆ T → stepLoop step fuel s ⊆ T := by
  intro fuel
  induction fuel with
  | zero => intro s h; simpa [stepLoop] using h
  | succ k ih =>
    intro s h
    simp only [stepLoop]
    by_cases hc : (step s).card = s.card
    · rw [if_pos hc]
      exact hstepT s h
    · rw [if_neg hc]
      exact ih (step s) (hstepT s h)

theorem triF_lt_nfacets (m : Mesh) {j el : ℕ} (hj : j < 3)
    (hel : el < nElems m.t) : triF m j el < triNFacets m := by
  unfold triF triNFacets triT2F triFacetTable
  exact mapping_lt_table (by simpa [triFacets] using hj) hel

theorem facetsStep_infl (m : Mesh) : ∀ s, s ⊆ facetsStep m s :=
  fun _ => Finset.subset_union_left

theorem facetsStep_range (m : Mesh) :
    ∀ s, facetsStep m s ⊆ s ∪ Finset.range (triNFacets m) := by
  intro s x hx
  unfold facetsStep at hx
  rw [Finset.mem_union] at hx ⊢
  rcases hx with h | h
  · exact Or.inl h
  · right
    rw [Finset.mem_image] at h
    obtain ⟨el, helmem, rfl⟩ := h
    rw [Finset.mem_filter, Finset.mem_range] at helmem
    exact Finset.mem_range.mpr (triF_lt_nfacets m (by omega) helmem.1)

theorem find_facets_init_subset (m : Mesh) (marked : List ℕ) :
    initFlags m marked ⊆ find_facets m marked :=
  stepLoop_inflation _ (facetsStep_infl m) _ _

theorem find_facets_fixpoint (m : Mesh) (marked : List ℕ) :
    facetsStep m (find_facets m marked) = find_facets m marked := by
  apply stepLoop_fixpoint (facetsStep m) (triNFacets m) (facetsStep_infl m)
    (facetsStep_range m)
  have h1 : (Finset.range (triNFacets m) \ initFlags m marked).card ≤
      (Finset.range (triNFacets m)).card :=
    Finset.card_le_card (Finset.sdiff_subset)
  rw [Finset.card_range] at h1
  omega

theorem find_facets_closed (m : Mesh) (marked : List ℕ) {el : ℕ}
    (hel : el < nElems m.t)
    (h : triF m 0 el ∈ find_facets m marked ∨
      triF m 1 el ∈ find_facets m marked) :
    triF m 2 el ∈ find_facets m marked := by
  have hfix := find_facets_fixpoint m marked
  rw [← hfix]
  unfold facetsStep
  rw [Finset.mem_union]
  right
  rw [Finset.mem_image]
  exact ⟨el, Finset.mem_filter.mpr ⟨Finset.mem_range.mpr hel, h⟩, rfl⟩

theorem find_facets_minimal (m : Mesh) (marked : List ℕ) (T : Finset ℕ)
    (hinit : initFlags m marked ⊆ T)
    (hclosed : ∀ el, el < nElems m.t →
      (triF m 0 el ∈ T ∨ triF m 1 el ∈ T) → triF m 2 el ∈ T) :
    find_facets m marked ⊆ T := by
  apply stepLoop_le (facetsStep m) T _ _ _ hinit
  intro s hs x hx
  unfold facetsStep at hx
  rw [Finset.mem_union] at hx
  rcases hx with h | h
  · exact hs h
  · rw [Finset.mem_image] at h
    obtain ⟨el, helmem, rfl⟩ := h
    rw [Finset.mem_filter, Finset.mem_range] at helmem
    refine hclosed el helmem.1 ?_
    rcases helmem.2 with h0 | h1
    · exact Or.inl (hs h0)
    · exact Or.inr (hs h1)

/-- C4 (amended): the flagged-facet set computed by `find_facets` is the
least fixed point of the rule the code actually implements: starting from
all facets of the marked elements, for every triangle one of whose local
edges 0, 1 is flagged (at least ONE, not at least two), additionally flag
its local edge 2, iterating until stable. -/
theorem claimC4_amended (m : Mesh) (marked : List ℕ) :
    initFlags m marked ⊆ find_facets m marked ∧
    (∀ el, el < nElems m.t →
      (triF m 0 el ∈ find_facets m marked ∨
        triF m 1 el ∈ find_facets m marked) →
      triF m 2 el ∈ find_facets m marked) ∧
    (∀ T : Finset ℕ, initFlags m marked ⊆ T →
      (∀ el, el < nElems m.t →
        (triF m 0 el ∈ T ∨ triF m 1 el ∈ T) → triF m 2 el ∈ T) →
      find_facets m marked ⊆ T) :=
  ⟨find_facets_init_subset m marked,
    fun _ hel h => find_facets_closed m marked hel h,
    fun T hinit hclosed => find_facets_minimal m marked T hinit hclosed⟩

/-- C4 counterexample: on two triangles sharing an edge that is local edge 0
of the second one, with the first marked, the code's flag set contains
facet 3, while the set computed with the spec's "at least two of three"
rule is a fixed point of that rule containing the initial flags but not
facet 3 — so the least fixed point of the spec's rule omits facet 3 and
the code's set is not that least fixed point. -/
theorem claimC4_counterexample :
    3 ∈ find_facets chainTri [0] ∧
    3 ∉ specFlags chainTri [0] ∧
    initFlags chainTri [0] ⊆ specFlags chainTri [0] ∧
    (∀ el, el < nElems chainTri.t →
      2 ≤ specFlagCount chainTri (specFlags chainTri [0]) el →
      triF chainTri 2 el ∈ specFlags chainTri [0]) ∧
    find_facets chainTri [0] ≠ specFlags chainTri [0] := by
  decide

/-- C4 witness: the amended least-fixed-point characterisation instantiated
on the two-triangle chain mesh with element 0 marked. -/
theorem claimC4_witness :
    initFlags chainTri [0] ⊆ find_facets chainTri [0] :=
  (claimC4_amended chainTri [0]).1

theorem splitIx_decide_nonneg (m : Mesh) (F : Finset ℕ) (j el : ℕ) :
    decide (0 ≤ splitIx m F j el) = decide (triF m j el ∈ F) := by
  by_cases h : triF m j el ∈ F
  · simp [splitIx, h]
    omega
  · simp [splitIx, h]

theorem splitIx_decide_neg (m : Mesh) (F : Finset ℕ) (j el : ℕ) :
    decide (splitIx m F j el = -1) = !(decide (triF m j el ∈ F)) := by
  by_cases h : triF m j el ∈ F
  · simp [splitIx, h]
    omega
  · simp [splitIx, h]

theorem splitRed_eq (m : Mesh) (F : Finset ℕ) (el : ℕ) :
    splitRed m F el = (decide (triF m 0 el ∈ F) && decide (triF m 1 el ∈ F) &&
      decide (triF m 2 el ∈ F)) := by
  unfold splitRed
  rw [splitIx_decide_nonneg, splitIx_decide_nonneg, splitIx_decide_nonneg]

theorem splitBlue1_eq (m : Mesh) (F : Finset ℕ) (el : ℕ) :
    splitBlue1 m F el = (!(decide (triF m 0 el ∈ F)) &&
      decide (triF m 1 el ∈ F) && decide (triF m 2 el ∈ F)) := by
  unfold splitBlue1
  rw [splitIx_decide_neg, splitIx_decide_nonneg, splitIx_decide_nonneg]

theorem splitBlue2_eq (m : Mesh) (F : Finset ℕ) (el : ℕ) :
    splitBlue2 m F el = (decide (triF m 0 el ∈ F) &&
      !(decide (triF m 1 el ∈ F)) && decide (triF m 2 el ∈ F)) := by
  unfold splitBlue2
  rw [splitIx_decide_nonneg, splitIx_decide_neg, splitIx_decide_nonneg]

theorem splitGreen_eq (m : Mesh) (F : Finset ℕ) (el : ℕ) :
    splitGreen m F el = (!(decide (triF m 0 el ∈ F)) &&
      !(decide (triF m 1 el ∈ F)) && decide (triF m 2 el ∈ F)) := by
  unfold splitGreen
  rw [splitIx_decide_neg, splitIx_decide_neg, splitIx_decide_nonneg]

theorem splitRest_eq (m : Mesh) (F : Finset ℕ) (el : ℕ) :
    splitRest m F el = (!(decide (triF m 0 el ∈ F)) &&
      !(decide (triF m 1 el ∈ F)) && !(decide (triF m 2 el ∈ F))) := by
  unfold splitRest
  rw [splitIx_decide_neg, splitIx_decide_neg, splitIx_decide_neg]

theorem triF_default (m : Mesh) {j el : ℕ} (hj : j < 3)
    (hel : ¬ el < nElems m.t) : triF m j el = 0 := by
  unfold triF triT2F matGet build_entities
  simp only
  rw [getD_map_in (by simpa [triFacets] using hj) _ [] []]
  apply List.getD_eq_default
  simp only [List.length_map, List.length_range]
  omega

/-- C10: at exit of the propagation loop, every triangle with local edge 0
or 1 flagged also has local edge 2 flagged, and the five classification
masks of `split_elements` (red, blue-1, blue-2, green, rest) are pairwise
disjoint and cover every element: each element falls in exactly one
bucket. -/
theorem claimC10_classification (m : Mesh) (marked : List ℕ) (el : ℕ) :
    ((triF m 0 el ∈ find_facets m marked ∨
        triF m 1 el ∈ find_facets m marked) →
      triF m 2 el ∈ find_facets m marked) ∧
    (if splitRed m (find_facets m marked) el then 1 else 0) +
      (if splitBlue1 m (find_facets m marked) el then 1 else 0) +
      (if splitBlue2 m (find_facets m marked) el then 1 else 0) +
      (if splitGreen m (find_facets m marked) el then 1 else 0) +
      (if splitRest m (find_facets m marked) el then 1 else 0) = 1 := by
  have hinv : (triF m 0 el ∈ find_facets m marked ∨
      triF m 1 el ∈ find_facets m marked) →
      triF m 2 el ∈ find_facets m marked := by
    by_cases hel : el < nElems m.t
    · exact find_facets_closed m marked hel
    · intro h
      have h0 : triF m 0 el = 0 := triF_default m (by omega) hel
      have h1 : triF m 1 el = 0 := triF_default m (by omega) hel
      have h2 : triF m 2 el = 0 := triF_default m (by omega) hel
      rw [h2]
      rcases h with h | h
      · rwa [h0] at h
      · rwa [h1] at h
  refine ⟨hinv, ?_⟩
  rw [splitRed_eq, splitBlue1_eq, splitBlue2_eq, splitGreen_eq, splitRest_eq]
  by_cases hb2 : triF m 2 el ∈ find_facets m marked
  · by_cases hb0 : triF m 0 el ∈ find_facets m marked <;>
      by_cases hb1 : triF m 1 el ∈ find_facets m marked <;>
        simp [hb0, hb1, hb2]
  · have hb0 : triF m 0 el ∉ find_facets m marked :=
      fun h => hb2 (hinv (Or.inl h))
    have hb1 : triF m 1 el ∉ find_facets m marked :=
      fun h => hb2 (hinv (Or.inr h))
    simp [hb0, hb1, hb2]

/-- C10 witness: the classification instantiated on the chain mesh with
element 0 marked: element 0 falls in exactly one of the five buckets. -/
theorem claimC10_witness :
    (if splitRed chainTri (find_facets chainTri [0]) 0 then 1 else 0) +
      (if splitBlue1 chainTri (find_facets chainTri [0]) 0 then 1 else 0) +
      (if splitBlue2 chainTri (find_facets chainTri [0]) 0 then 1 else 0) +
      (if splitGreen chainTri (find_facets chainTri [0]) 0 then 1 else 0) +
      (if splitRest chainTri (find_facets chainTri [0]) 0 then 1 else 0) = 1 :=
  (claimC10_classification chainTri [0] 0).2

theorem find_facets_empty (m : Mesh) : find_facets m [] = ∅ := by
  have hinit : initFlags m [] = ∅ := by simp [initFlags]
  have hstep : facetsStep m ∅ = ∅ := by
    unfold facetsStep
    simp
  unfold find_facets
  rw [hinit]
  simp only [stepLoop, hstep]
  simp

theorem splitP_empty (m : Mesh) : splitP m ∅ = m.doflocs := by
  unfold splitP flaggedList
  simp

theorem splitT_empty (m : Mesh) : splitT m ∅ =
    [(List.range (nElems m.t)).map (fun el => matGet m.t 0 el),
     (List.range (nElems m.t)).map (fun el => matGet m.t 1 el),
     (List.range (nElems m.t)).map (fun el => matGet m.t 2 el)] := by
  have hrest : ∀ el, splitRest m ∅ el = true := by
    intro el; rw [splitRest_eq]; simp
  have hred : ∀ el, splitRed m ∅ el = false := by
    intro el; rw [splitRed_eq]; simp
  have hblue1 : ∀ el, splitBlue1 m ∅ el = false := by
    intro el; rw [splitBlue1_eq]; simp
  have hblue2 : ∀ el, splitBlue2 m ∅ el = false := by
    intro el; rw [splitBlue2_eq]; simp
  have hgreen : ∀ el, splitGreen m ∅ el = false := by
    intro el; rw [splitGreen_eq]; simp
  unfold splitT segOn
  simp [hrest, hred, hblue1, hblue2, hgreen]

theorem nElems_sort_mesh (p : List (List ℚ)) (t : List (List ℕ)) :
    nElems (sort_mesh p t) = nElems t := by
  simp [sort_mesh, nElems, seg]

theorem matGet_sort_mesh (p : List (List ℚ)) (t : List (List ℕ)) {el : ℕ}
    (hel : el < nElems t) :
    matGet (sort_mesh p t) 0 el =
      (if sortIx12 p t el then sortStage1Row1 p t el else matGet t 0 el) ∧
    matGet (sort_mesh p t) 1 el =
      (if sortIx12 p t el then matGet t 0 el else sortStage1Row1 p t el) ∧
    matGet (sort_mesh p t) 2 el = sortStage1Row2 p t el := by
  unfold sort_mesh matGet seg
  refine ⟨?_, ?_, ?_⟩ <;>
    simp only [List.getD_cons_zero, List.getD_cons_succ] <;>
    rw [getD_range_map hel _ 0]

theorem adaptive_empty_doflocs (m : Mesh) :
    (MeshTri1_adaptive m []).doflocs = m.doflocs := by
  show splitP ⟨m.doflocs, sort_mesh m.doflocs m.t⟩
    (find_facets ⟨m.doflocs, sort_mesh m.doflocs m.t⟩ []) = m.doflocs
  rw [find_facets_empty, splitP_empty]

theorem adaptive_empty_t (m : Mesh) :
    (MeshTri1_adaptive m []).t = sort_mesh m.doflocs m.t := by
  show splitT ⟨m.doflocs, sort_mesh m.doflocs m.t⟩
    (find_facets ⟨m.doflocs, sort_mesh m.doflocs m.t⟩ []) = sort_mesh m.doflocs m.t
  rw [find_facets_empty, splitT_empty]
  show [(List.range (nElems (sort_mesh m.doflocs m.t))).map
          (fun el => matGet (sort_mesh m.doflocs m.t) 0 el),
        (List.range (nElems (sort_mesh m.doflocs m.t))).map
          (fun el => matGet (sort_mesh m.doflocs m.t) 1 el),
        (List.range (nElems (sort_mesh m.doflocs m.t))).map
          (fun el => matGet (sort_mesh m.doflocs m.t) 2 el)] =
    sort_mesh m.doflocs m.t
  rw [nElems_sort_mesh]
  have h0 : (List.range (nElems m.t)).map
      (fun el => matGet (sort_mesh m.doflocs m.t) 0 el) =
      seg (nElems m.t) (fun el =>
        if sortIx12 m.doflocs m.t el then sortStage1Row1 m.doflocs m.t el
        else matGet m.t 0 el) :=
    List.map_congr_left (fun el hel =>
      (matGet_sort_mesh m.doflocs m.t (List.mem_range.mp hel)).1)
  have h1 : (List.range (nElems m.t)).map
      (fun el => matGet (sort_mesh m.doflocs m.t) 1 el) =
      seg (nElems m.t) (fun el =>
        if sortIx12 m.doflocs m.t el then matGet m.t 0 el
        else sortStage1Row1 m.doflocs m.t el) :=
    List.map_congr_left (fun el hel =>
      (matGet_sort_mesh m.doflocs m.t (List.mem_range.mp hel)).2.1)
  have h2 : (List.range (nElems m.t)).map
      (fun el => matGet (sort_mesh m.doflocs m.t) 2 el) =
      seg (nElems m.t) (fun el => sortStage1Row2 m.doflocs m.t el) :=
    List.map_congr_left (fun el hel =>
      (matGet_sort_mesh m.doflocs m.t (List.mem_range.mp hel)).2.2)
  rw [h0, h1, h2]
  rfl

/-- C6 (amended): adaptive refinement with an empty marked set adds no
vertex and no element: the coordinate array is returned unchanged and the
connectivity is exactly the longest-edge canonicalisation `sort_mesh` of
the input — the element count and order are preserved and each element's
stored vertex column is a permutation of the input's (the local vertex
order may change, the point set of every element does not). -/
theorem claimC6_amended (m : Mesh) :
    (MeshTri1_adaptive m []).doflocs = m.doflocs ∧
    (MeshTri1_adaptive m []).t = sort_mesh m.doflocs m.t ∧
    ∀ el, el < nElems m.t →
      [matGet (MeshTri1_adaptive m []).t 0 el,
       matGet (MeshTri1_adaptive m []).t 1 el,
       matGet (MeshTri1_adaptive m []).t 2 el].Perm
        [matGet m.t 0 el, matGet m.t 1 el, matGet m.t 2 el] := by
  refine ⟨adaptive_empty_doflocs m, adaptive_empty_t m, ?_⟩
  intro el hel
  rw [adaptive_empty_t]
  obtain ⟨h0, h1, h2⟩ := matGet_sort_mesh m.doflocs m.t hel
  rw [h0, h1, h2]
  by_cases hx12 : sortIx12 m.doflocs m.t el = true <;>
    by_cases hx01 : sortIx01 m.doflocs m.t el = true <;>
      simp only [sortStage1Row1, sortStage1Row2, hx01, hx12, if_true,
        if_false, Bool.false_eq_true, if_pos, if_neg]
  · exact (List.Perm.swap _ _ _).trans (List.Perm.cons _ (List.Perm.swap _ _ _))
  · exact List.Perm.swap _ _ _
  · exact List.Perm.cons _ (List.Perm.swap _ _ _)
  · exact List.Perm.refl _

/-- C6 counterexample: on a single obtuse triangle (longest edge in local
slot `(0,1)`) the adaptive refinement with an empty marked set returns the
same coordinates but a different connectivity array — the canonicalisation
permutes the element's stored vertex tuple, so the element data is not
identical. -/
theorem claimC6_counterexample :
    (MeshTri1_adaptive obtuseTri []).doflocs = obtuseTri.doflocs ∧
      (MeshTri1_adaptive obtuseTri []).t ≠ obtuseTri.t := by
  refine ⟨adaptive_empty_doflocs obtuseTri, ?_⟩
  rw [adaptive_empty_t]
  have h01 : sortIx01 [[0, 2, 1], [0, 0, 1]] [[0], [1], [2]] 0 = true := by
    norm_num [sortIx01, sqDist, matGet]
  have h12 : sortIx12 [[0, 2, 1], [0, 0, 1]] [[0], [1], [2]] 0 = false := by
    norm_num [sortIx12, sqDist, matGet]
  show sort_mesh [[0, 2, 1], [0, 0, 1]] [[0], [1], [2]] ≠ [[0], [1], [2]]
  simp [sort_mesh, seg, nElems, sortStage1Row1, sortStage1Row2, matGet,
    h01, h12, List.range_succ]

/-- C6 witness: the amended statement instantiated on the default triangle
mesh at element 0. -/
theorem claimC6_witness :
    (0 < nElems defaultTri.t) ∧
      [matGet (MeshTri1_adaptive defaultTri []).t 0 0,
       matGet (MeshTri1_adaptive defaultTri []).t 1 0,
       matGet (MeshTri1_adaptive defaultTri []).t 2 0].Perm
        [matGet defaultTri.t 0 0, matGet defaultTri.t 1 0,
         matGet defaultTri.t 2 0] :=
  ⟨by decide, (claimC6_amended defaultTri).2.2 0 (by decide)⟩

/-- C8: evidence of the in-place mutation.  On the single obtuse triangle,
the contents of `self.t` after `_adaptive` returns (`sort_mesh` swaps rows
1 and 2 of `self.t` in place through NumPy fancy-index assignment) differ
from the connectivity the mesh was constructed with: the source mesh's
array is mutated, contradicting the claim. -/
theorem claimC8_mutation :
    adaptiveMutatedT obtuseTriCopy = [[0], [2], [1]] ∧
      obtuseTriCopy.t = [[0], [1], [2]] ∧
      adaptiveMutatedT obtuseTriCopy ≠ obtuseTriCopy.t := by
  have h01 : sortIx01 [[0, 2, 1], [0, 0, 1]] [[0], [1], [2]] 0 = true := by
    norm_num [sortIx01, sqDist, matGet]
  have h12 : sortIx12 [[0, 2, 1], [0, 0, 1]] [[0], [1], [2]] 0 = false := by
    norm_num [sortIx12, sqDist, matGet]
  have hmain : adaptiveMutatedT obtuseTriCopy = [[0], [2], [1]] := by
    show sort_mesh [[0, 2, 1], [0, 0, 1]] [[0], [1], [2]] = [[0], [2], [1]]
    simp [sort_mesh, seg, nElems, sortStage1Row1, sortStage1Row2, matGet,
      h01, h12, List.range_succ]
  refine ⟨hmain, rfl, ?_⟩
  rw [hmain]
  decide

/-- C7: evidence that `boundary_edges` misses an edge that lies on a
boundary facet.  For the single tetrahedron with connectivity column
`(1, 0, 2, 3)`, all four facets are boundary facets, edge 0 is stored in
the edge table as the (descending) tuple `(1, 0)` and both its vertices
belong to boundary facet 0's tuple, yet the returned index list is
`[1, 2, 3, 4, 5]` — edge 0 is missing, because the candidate rows `A` are
matched unsorted against the sorted pairs `B`. -/
theorem claimC7_missing_edge :
    boundary_edges tetDescMesh.t tetFacets tetEdges = some [1, 2, 3, 4, 5] ∧
      boundary_facets tetDescMesh.t
        (build_entities tetDescMesh.t tetFacets).2 = [0, 1, 2, 3] ∧
      (build_entities tetDescMesh.t tetEdges).1.getD 0 [] = [1, 0] ∧
      (∀ v ∈ (build_entities tetDescMesh.t tetEdges).1.getD 0 [],
        v ∈ (build_entities tetDescMesh.t tetFacets).1.getD 0 []) := by
  decide

/-- C5: refining the default single unit-square quadrilateral uniformly
once yields exactly 4 elements and 9 coordinate columns, and the set of
coordinate columns is exactly the 3-by-3 grid of the unit square. -/
theorem claimC5_quad_refine :
    nElems (MeshQuad1_uniform defaultQuad).t = 4 ∧
    (MeshQuad1_uniform defaultQuad).doflocs.map List.length = [9, 9] ∧
    ((List.range 9).map (fun j =>
        (((MeshQuad1_uniform defaultQuad).doflocs.getD 0 []).getD j 0,
         ((MeshQuad1_uniform defaultQuad).doflocs.getD 1 []).getD j 0))).toFinset =
      ({((0 : ℚ), (0 : ℚ)), (1 / 2, 0), (1, 0), (0, 1 / 2), (1 / 2, 1 / 2),
        (1, 1 / 2), (0, 1), (1 / 2, 1), (1, 1)} : Finset (ℚ × ℚ)) := by
  have hfc : (build_entities defaultQuad.t quadFacets).1 =
      [[0, 1], [0, 3], [1, 2], [2, 3]] := by decide
  have hd : (MeshQuad1_uniform defaultQuad).doflocs =
      [[0, 1, 1, 0, 1 / 2, 0, 1, 1 / 2, 1 / 2],
       [0, 0, 1, 1, 0, 1 / 2, 1 / 2, 1, 1 / 2]] := by
    show defaultQuad.doflocs.map (fun row =>
        row ++ ((build_entities defaultQuad.t quadFacets).1).map (entMean row)
            ++ (List.range (nElems defaultQuad.t)).map (fun el =>
                  entMean row (defaultQuad.t.map (fun trow => trow.getD el 0)))) = _
    rw [hfc]
    norm_num [entMean, defaultQuad, nElems, List.range_succ]
  have hcols : (List.range 9).map (fun j =>
      (((MeshQuad1_uniform defaultQuad).doflocs.getD 0 []).getD j 0,
       ((MeshQuad1_uniform defaultQuad).doflocs.getD 1 []).getD j 0)) =
      [((0 : ℚ), (0 : ℚ)), (1, 0), (1, 1), (0, 1), (1 / 2, 0), (0, 1 / 2),
        (1, 1 / 2), (1 / 2, 1), (1 / 2, 1 / 2)] := by
    rw [hd]
    simp [List.range_succ]
  refine ⟨by decide, ?_, ?_⟩
  · rw [hd]
    decide
  · rw [hcols]
    apply Finset.ext
    intro x
    simp only [List.mem_toFinset, List.mem_cons, List.not_mem_nil, or_false,
      Finset.mem_insert, Finset.mem_singleton]
    tauto
